import Mathlib

/-!
Verification of the nostr-wot client core against its specification.

The TypeScript sources are shallowly embedded: JS strings become `List Char`,
byte arrays become `List Nat` (each entry `< 256`), JS 32-bit bitwise
arithmetic becomes `Nat` arithmetic masked with `&&& 0xffffffff` where the
source can overflow, fallible operations return `Option`, and platform
primitives that the repository treats as library-grade (SHA-256, AES-CBC,
secp256k1 ECDH, Schnorr signing, JSON.parse of arbitrary documents) are
abstracted as function parameters.  Event-driven code (WebSocket callbacks and
timers) is embedded as an explicit state machine: each callback invocation is
one atomic step, and the environment supplies a trace of steps subject to a
validity predicate (a timer can only fire while it is armed, a socket delivers
at most one error and one close callback, and so on).
-/

set_option maxRecDepth 100000

/-- Hex digit characters, as used by `toString(16)` in the source. -/
def hexDigits : List Char := "0123456789abcdef".toList

/-- Render one byte as two lowercase hex characters, as
`b.toString(16).padStart(2, "0")` does for `b < 256`. -/
def byteToHexChars (b : Nat) : List Char :=
  [hexDigits.getD (b / 16 % 16) 'x', hexDigits.getD (b % 16) 'x']

/-- Render a byte list as lowercase hex, the `bytesToHex` helper of the
`@noble/hashes` library used throughout `crypto.ts`. -/
def bytesToHex (bs : List Nat) : List Char :=
  (bs.map byteToHexChars).flatten

/-- Value of a single hex digit, `none` on a non-hex character. -/
def hexDigitVal (c : Char) : Option Nat :=
  hexDigits.findIdx? (fun x => x = c.toLower)

/-- Parse a hex string two characters at a time into bytes, as the source's
`parseInt(hex.substr(i, 2), 16)` loop does on well-formed hex; ill-formed hex
(a non-hex character, or odd length) is modelled as failure. -/
def hexPairsToBytes : List Char → Option (List Nat)
  | [] => some []
  | a :: b :: rest =>
    match hexDigitVal a, hexDigitVal b, hexPairsToBytes rest with
    | some x, some y, some bs => some ((x * 16 + y) :: bs)
    | _, _, _ => none
  | [_] => none

/-- Characters removed from both ends by the JavaScript `String.trim` used in
`normalizePrivateKey` (the common ASCII whitespace). -/
def isJsSpace (c : Char) : Bool :=
  c = ' ' || c = '\t' || c = '\n' || c = '\r' || c = '\x0b' || c = '\x0c'

/-- JavaScript `String.trim`. -/
def jsTrim (s : List Char) : List Char :=
  ((s.dropWhile isJsSpace).reverse.dropWhile isJsSpace).reverse

/-- Split a string at the first occurrence of a (nonempty) separator,
returning the parts before and after it; `none` when the separator does not
occur.  This models the first two components of a JavaScript
`s.split(sep)` destructuring. -/
def splitFirst (sep : List Char) : List Char → Option (List Char × List Char)
  | [] => none
  | c :: cs =>
    if sep.isPrefixOf (c :: cs) then some ([], (c :: cs).drop sep.length)
    else
      match splitFirst sep cs with
      | some (a, b) => some (c :: a, b)
      | none => none

/-- JavaScript `s.includes(sep)` for a nonempty separator. -/
def containsTok (sep s : List Char) : Bool :=
  (splitFirst sep s).isSome

/-! ## Bech32 codec (`hexToNpub`, `bech32ToHex` in `crypto.ts`) -/

/-- The bech32 character set from the source. -/
def bech32Alphabet : List Char := "qpzry9x8gf2tvdw0s3jn54khce6mua7l".toList

/-- The `ALPHABET.indexOf(char)` lookup of the source (`none` models `-1`). -/
def bech32CharVal (c : Char) : Option Nat :=
  bech32Alphabet.findIdx? (fun x => x = c)

/-- The source's per-character decode loop: every character must be in the
bech32 alphabet, otherwise the whole decode returns `null`. -/
def charsToVals : List Char → Option (List Nat)
  | [] => some []
  | c :: cs =>
    match bech32CharVal c, charsToVals cs with
    | some v, some vs => some (v :: vs)
    | _, _ => none

/-- The 5-bit-to-8-bit regrouping loop of `bech32ToHex`.  The source keeps the
accumulator in a JS 32-bit integer; only its low 13 bits are ever read, and we
mask to 32 bits where the source would wrap. -/
def convert5to8 : List Nat → Nat → Nat → List Nat
  | [], _, _ => []
  | v :: rest, acc, bits =>
    let acc2 := ((acc <<< 5) ||| v) &&& 0xffffffff
    let bits2 := bits + 5
    if 8 ≤ bits2 then ((acc2 >>> (bits2 - 8)) &&& 255) :: convert5to8 rest acc2 (bits2 - 8)
    else convert5to8 rest acc2 bits2

/-- Fuelled form of the inner `while (bits >= 5)` drain (the fuel only bounds
the iteration count; with fuel at least `bits` it never runs out, since each
iteration consumes five bits). -/
def drain5Go : Nat → Nat → Nat → List Nat × Nat
  | 0, _, bits => ([], bits)
  | fuel + 1, acc, bits =>
    if 5 ≤ bits then
      let r := drain5Go fuel acc (bits - 5)
      (((acc >>> (bits - 5)) &&& 31) :: r.1, r.2)
    else ([], bits)

/-- Inner `while (bits >= 5)` drain of the 8-bit-to-5-bit loop in
`hexToNpub`: extract as many complete 5-bit groups as possible, returning the
groups and the remaining bit count. -/
def drain5 (acc : Nat) (bits : Nat) : List Nat × Nat :=
  drain5Go bits acc bits

/-- The 8-bit-to-5-bit regrouping loop of `hexToNpub`, including the final
`if (bits > 0)` push of the padded remainder. -/
def convert8to5 : List Nat → Nat → Nat → List Nat
  | [], acc, bits => if 0 < bits then [(acc <<< (5 - bits)) &&& 31] else []
  | b :: rest, acc, bits =>
    let acc2 := ((acc <<< 8) ||| b) &&& 0xffffffff
    let d := drain5 acc2 (bits + 8)
    d.1 ++ convert8to5 rest acc2 d.2

/-- The BIP-173 generator constants from the source's `polymod`. -/
def bech32Gen : List Nat := [0x3b6a57b2, 0x26508e6d, 0x1ea119fa, 0x3d4233dd, 0x2a1462b3]

/-- One iteration of the source's `polymod` loop. -/
def polymodStep (chk v : Nat) : Nat :=
  let b := chk >>> 25
  let c0 := (((chk &&& 0x1ffffff) <<< 5) ^^^ v) &&& 0xffffffff
  let c1 := if (b >>> 0) &&& 1 = 1 then c0 ^^^ 0x3b6a57b2 else c0
  let c2 := if (b >>> 1) &&& 1 = 1 then c1 ^^^ 0x26508e6d else c1
  let c3 := if (b >>> 2) &&& 1 = 1 then c2 ^^^ 0x1ea119fa else c2
  let c4 := if (b >>> 3) &&& 1 = 1 then c3 ^^^ 0x3d4233dd else c3
  if (b >>> 4) &&& 1 = 1 then c4 ^^^ 0x2a1462b3 else c4

/-- The source's `polymod`. -/
def polymod (values : List Nat) : Nat :=
  values.foldl polymodStep 1

/-- The source's `hrpExpand`. -/
def hrpExpand (hrp : List Char) : List Nat :=
  hrp.map (fun c => c.toNat >>> 5) ++ [0] ++ hrp.map (fun c => c.toNat &&& 31)

/-- The source's `createChecksum`. -/
def createChecksum (hrp : List Char) (data : List Nat) : List Nat :=
  let pv := polymod (hrpExpand hrp ++ data ++ [0, 0, 0, 0, 0, 0]) ^^^ 1
  (List.range 6).map (fun i => (pv >>> (5 * (5 - i))) &&& 31)

/-- `hexToNpub` from `crypto.ts`: hex to bytes, 8-to-5-bit regrouping,
checksum, and alphabet rendering.  Ill-formed hex input is modelled as
failure. -/
def hexToNpub (hex : List Char) : Option (List Char) :=
  (hexPairsToBytes hex).map fun bytes =>
    let values := convert8to5 bytes 0 0
    let checksum := createChecksum ("npub".toList) values
    ("npub1".toList) ++ (values ++ checksum).map (fun v => bech32Alphabet.getD v 'x')

/-- Recognized bech32 key types. -/
inductive B32Type
  | nsec
  | npub
deriving DecidableEq, Repr

/-- `bech32ToHex` from `crypto.ts`: lowercase, recognize the `nsec`/`npub`
human-readable part, decode the data characters, drop the final six data
characters, regroup 5-bit values into bytes, and return the hex.  Note that
the source performs no checksum verification. -/
def bech32ToHex (s : List Char) : Option (B32Type × List Char) :=
  let lower := s.map Char.toLower
  let t : Option B32Type :=
    if ("nsec".toList).isPrefixOf lower then some B32Type.nsec
    else if ("npub".toList).isPrefixOf lower then some B32Type.npub
    else none
  match t with
  | none => none
  | some ty =>
    let data := lower.drop 5
    match charsToVals data with
    | none => none
    | some values =>
      let bytes := convert5to8 (values.take (values.length - 6)) 0 0
      some (ty, bytesToHex bytes)

/-- Standard BIP-173 checksum verification, built from the source's own
`polymod` and `hrpExpand`: a bech32 string `hrp ++ "1" ++ data` has a valid
checksum exactly when `polymod(hrpExpand(hrp) ++ data) == 1`.  The decoder in
the source never performs this check; it is stated here so the claim about
invalid checksums can be expressed. -/
def bech32ChecksumOk (hrp : List Char) (data : List Nat) : Bool :=
  polymod (hrpExpand hrp ++ data) = 1

/-- Checksum validity of a whole candidate `npub`/`nsec` string (first four
characters are the human-readable part, fifth is the separator). -/
def bech32StringChecksumOk (s : List Char) : Bool :=
  match charsToVals ((s.map Char.toLower).drop 5) with
  | some vals => bech32ChecksumOk ((s.map Char.toLower).take 4) vals
  | none => false

/-! ## Base64 (`btoa` / `atob` platform primitives)

The source calls the platform `btoa`/`atob`.  They are embedded concretely:
`btoa` is RFC 4648 encoding of a byte string, `atob` is the WHATWG
forgiving-base64 decode followed by `charCodeAt` on every character. -/

/-- The base64 alphabet. -/
def base64Alphabet : List Char :=
  "ABCDEFGHIJKLMNOPQRSTUVWXYZabcdefghijklmnopqrstuvwxyz0123456789+/".toList

/-- Character for a 6-bit group. -/
def b64c (n : Nat) : Char := base64Alphabet.getD n 'x'

/-- Index of a base64 character, `none` when outside the alphabet. -/
def b64CharVal (c : Char) : Option Nat :=
  base64Alphabet.findIdx? (fun x => x = c)

/-- The platform `btoa` on a byte string: three bytes become four characters,
with `=` padding for a trailing group of one or two bytes. -/
def btoa : List Nat → List Char
  | [] => []
  | [a] => [b64c (a / 4), b64c (a % 4 * 16), '=', '=']
  | [a, b] => [b64c (a / 4), b64c (a % 4 * 16 + b / 16), b64c (b % 16 * 4), '=']
  | a :: b :: c :: rest =>
    [b64c (a / 4), b64c (a % 4 * 16 + b / 16), b64c (b % 16 * 4 + c / 64), b64c (c % 64)]
      ++ btoa rest

/-- The 6-bit groups of `btoa` without the padding characters. -/
def bytesToVals64 : List Nat → List Nat
  | [] => []
  | [a] => [a / 4, a % 4 * 16]
  | [a, b] => [a / 4, a % 4 * 16 + b / 16, b % 16 * 4]
  | a :: b :: c :: rest =>
    [a / 4, a % 4 * 16 + b / 16, b % 16 * 4 + c / 64, c % 64] ++ bytesToVals64 rest

/-- ASCII whitespace skipped by forgiving-base64 decoding. -/
def isB64Space (c : Char) : Bool :=
  c = '\x09' || c = '\x0a' || c = '\x0c' || c = '\x0d' || c = ' '

/-- Decode 6-bit groups into bytes, emitting a byte whenever eight or more
bits have accumulated and discarding leftover bits at the end. -/
def convert6to8 : List Nat → Nat → Nat → List Nat
  | [], _, _ => []
  | v :: rest, acc, bits =>
    let acc2 := acc * 64 + v
    let bits2 := bits + 6
    if 8 ≤ bits2 then (acc2 / 2 ^ (bits2 - 8) % 256) :: convert6to8 rest acc2 (bits2 - 8)
    else convert6to8 rest acc2 bits2

/-- Decode every character as a 6-bit group; any character outside the
alphabet fails the whole decode. -/
def charsToB64Vals : List Char → Option (List Nat)
  | [] => some []
  | c :: cs =>
    match b64CharVal c, charsToB64Vals cs with
    | some v, some vs => some (v :: vs)
    | _, _ => none

/-- The padding-removal step of forgiving-base64: when the whitespace-free
data has length divisible by four, up to two trailing `=` characters are
removed. -/
def stripPad (d1 : List Char) : List Char :=
  if d1.length % 4 = 0 then
    if d1.getLast? = some '=' then
      if d1.dropLast.getLast? = some '=' then d1.dropLast.dropLast else d1.dropLast
    else d1
  else d1

/-- The platform `atob` (WHATWG forgiving-base64), returning the byte values
of the decoded binary string; `none` models the `InvalidCharacterError`
exception. -/
def atob (s : List Char) : Option (List Nat) :=
  let d2 := stripPad (s.filter (fun c => !isB64Space c))
  if d2.length % 4 = 1 then none
  else (charsToB64Vals d2).map (fun vals => convert6to8 vals 0 0)

/-! ## UTF-8 (`TextEncoder` / `TextDecoder` platform primitives) -/

/-- The platform `TextEncoder.encode` on one character (standard UTF-8). -/
def utf8EncodeChar (c : Char) : List Nat :=
  let v := c.toNat
  if v < 0x80 then [v]
  else if v < 0x800 then [0xc0 + v / 64, 0x80 + v % 64]
  else if v < 0x10000 then [0xe0 + v / 4096, 0x80 + v / 64 % 64, 0x80 + v % 64]
  else [0xf0 + v / 262144, 0x80 + v / 4096 % 64, 0x80 + v / 64 % 64, 0x80 + v % 64]

/-- The platform `TextEncoder.encode`. -/
def utf8Encode (s : List Char) : List Nat :=
  (s.map utf8EncodeChar).flatten

/-- Whether a byte is a UTF-8 continuation byte. -/
def isCont (b : Nat) : Bool := 0x80 ≤ b && b < 0xc0

/-- Streaming state of the platform UTF-8 decoder: the partial code point,
how many continuation bytes are still needed, and the output so far. -/
structure Utf8State where
  codepoint : Nat
  needed : Nat
  out : List Char
deriving DecidableEq, Repr

/-- Handle one byte in the fresh (no pending sequence) state: an ASCII byte
is emitted, a lead byte opens a multi-byte sequence, anything else is a
replacement character. -/
def utf8StepFresh (out : List Char) (b : Nat) : Utf8State :=
  if b < 0x80 then ⟨0, 0, out ++ [Char.ofNat b]⟩
  else if 0xc0 ≤ b ∧ b < 0xe0 then ⟨b - 0xc0, 1, out⟩
  else if 0xe0 ≤ b ∧ b < 0xf0 then ⟨b - 0xe0, 2, out⟩
  else if 0xf0 ≤ b ∧ b < 0xf8 then ⟨b - 0xf0, 3, out⟩
  else ⟨0, 0, out ++ ['�']⟩

/-- Handle one byte of the streaming UTF-8 decoder: a continuation byte
extends the pending sequence (emitting its code point when complete); a
non-continuation byte while a sequence is pending emits a replacement and is
reprocessed fresh. -/
def utf8Step (st : Utf8State) (b : Nat) : Utf8State :=
  if st.needed = 0 then utf8StepFresh st.out b
  else if isCont b then
    if st.needed = 1 then ⟨0, 0, st.out ++ [Char.ofNat (st.codepoint * 64 + (b - 0x80))]⟩
    else ⟨st.codepoint * 64 + (b - 0x80), st.needed - 1, st.out⟩
  else utf8StepFresh (st.out ++ ['�']) b

/-- The platform `TextDecoder.decode` as the streaming decoder of the WHATWG
encoding standard; it agrees with the platform decoder on valid UTF-8 input
and degrades to replacement characters on invalid input (the source never
depends on the invalid-input behaviour). -/
def utf8Decode (bs : List Nat) : List Char :=
  let st := bs.foldl utf8Step ⟨0, 0, []⟩
  if st.needed = 0 then st.out else st.out ++ ['�']

/-! ## Key normalization (`normalizePrivateKey` in `crypto.ts`) -/

/-- `normalizePrivateKey`: trim, decode an `nsec` bech32 form to hex, left-pad
short hex to 64 characters, and require exactly 64 characters; `none` models
the thrown `Invalid nsec format` / `Invalid private key length` errors. -/
def normalizePrivateKey (privateKey : List Char) : Option (List Char) :=
  let hex0 := jsTrim privateKey
  let decoded : Option (List Char) :=
    if ("nsec".toList).isPrefixOf hex0 then
      match bech32ToHex hex0 with
      | some (B32Type.nsec, h) => some h
      | _ => none
    else some hex0
  decoded.bind fun hex1 =>
    let hex2 := if hex1.length < 64 then List.replicate (64 - hex1.length) '0' ++ hex1 else hex1
    if hex2.length = 64 then some hex2 else none

/-! ## JSON values for decrypted NIP-46 control messages

`JSON.parse` output is modelled only as far as the source inspects it: a
field is either absent (JavaScript `undefined`) or holds a JSON value, and
the source combines fields with `&&`/`!`, i.e. JavaScript truthiness. -/

/-- A JSON value as far as truthiness and string comparison are concerned.
Objects and arrays are collapsed to opaque constructors: the source never
looks inside them where this type is used. -/
inductive JVal where
  | jstr (s : List Char)
  | jnum (n : Int)
  | jbool (b : Bool)
  | jnull
  | jobj
  | jarr
deriving DecidableEq, Repr

/-- JavaScript truthiness of a JSON value. -/
def truthy : JVal → Bool
  | JVal.jstr s => !s.isEmpty
  | JVal.jnum n => n != 0
  | JVal.jbool b => b
  | JVal.jnull => false
  | JVal.jobj => true
  | JVal.jarr => true

/-- JavaScript truthiness of a possibly absent field (`undefined` is falsy). -/
def truthyOpt : Option JVal → Bool
  | some v => truthy v
  | none => false

/-- A decrypted NIP-46 control message `{id?, method?, result?, error?}` as
parsed by `JSON.parse`; `none` is an absent field. -/
structure RpcMessage where
  id : Option JVal
  method : Option JVal
  result : Option JVal
  error : Option JVal
deriving DecidableEq, Repr

/-- The `isConnectResponse` classifier from `startNostrConnect` in
`connect.ts`, translated condition for condition (JavaScript `===` against a
string literal succeeds only on an equal string value; `&&`/`!` are
truthiness). -/
def isConnectResponse (secret : List Char) (r : RpcMessage) : Bool :=
  r.result == some (JVal.jstr ("ack".toList)) ||
  r.result == some (JVal.jstr secret) ||
  r.method == some (JVal.jstr ("connect".toList)) ||
  (truthyOpt r.result && !truthyOpt r.error) ||
  (truthyOpt r.id && !(r.result == none))

/-- The connect-acknowledgement classifier exactly as the claim words it,
reading `present` as field presence and `absent` as field absence. -/
def isConnectAckClaim (secret : List Char) (r : RpcMessage) : Bool :=
  r.result == some (JVal.jstr ("ack".toList)) ||
  r.result == some (JVal.jstr secret) ||
  r.method == some (JVal.jstr ("connect".toList)) ||
  (!(r.result == none) && r.error == none) ||
  (!(r.id == none) && !(r.result == none))

/-! ## Cipher format sniffing (`nip04Decrypt` dispatch in `crypto.ts`) -/

/-- The tagged cipher-format classification of the spec's design notes. -/
inductive CipherFormat where
  | versioned
  | legacySep
  | legacyJson
  | unknownFmt
deriving DecidableEq, Repr

/-- The `{"ciphertext": ..., "iv": ...}` fields of a JSON-parsed ciphertext
candidate (`none` is an absent field). -/
structure CipherJson where
  cipherF : Option JVal
  ivF : Option JVal

/-- The legacy/unknown tail of the `nip04Decrypt` dispatch: the three IV
separator probes, then the JSON probe with truthy `ciphertext` and `iv`
fields, then the `Unknown encryption format` failure.  `jp` abstracts
`JSON.parse` (`none` models a parse exception). -/
def nip04SniffLegacy (jp : List Char → Option CipherJson) (s : List Char) : CipherFormat :=
  if containsTok ("?iv=".toList) s || containsTok ("&iv=".toList) s ||
      containsTok ("_iv=".toList) s then
    CipherFormat.legacySep
  else
    match jp s with
    | some j =>
      if truthyOpt j.cipherF && truthyOpt j.ivF then CipherFormat.legacyJson
      else CipherFormat.unknownFmt
    | none => CipherFormat.unknownFmt

/-- The dispatch of `nip04Decrypt` in `crypto.ts` as a pure classifier: which
decryption path is attempted first for a given ciphertext.  Base64 decoding
is tried before anything else; a decode that yields first byte `0x02` and at
least 65 bytes selects the versioned (NIP-44) path, everything else falls to
the legacy probes. -/
def classifyCipher (jp : List Char → Option CipherJson) (s : List Char) : CipherFormat :=
  match atob s with
  | some d =>
    if d.head? = some 2 ∧ 65 ≤ d.length then CipherFormat.versioned
    else nip04SniffLegacy jp s
  | none => nip04SniffLegacy jp s

/-! ## Legacy NIP-04 encryption and decryption (`crypto.ts`) -/

/-- First two components of a JavaScript `s.split(sep)` destructuring: the
part before the first separator occurrence, and the part between the first
occurrence and the next one (or the end). -/
def jsSplitTwo (sep s : List Char) : List Char × List Char :=
  match splitFirst sep s with
  | none => (s, [])
  | some (a, rest) =>
    match splitFirst sep rest with
    | none => (a, rest)
    | some (b, _) => (a, b)

/-- `nip04Encrypt` from `crypto.ts`.  `gss` abstracts
`secp256k1.getSharedSecret` (hex key, hex point with parity prefix, to the
33-byte shared point), `aesEnc` abstracts `crypto.subtle` AES-256-CBC
encryption `(key, iv, plaintext)`, and `iv` is the randomly drawn 16-byte IV,
supplied by the environment. -/
def nip04Encrypt (gss : List Char → List Char → List Nat)
    (aesEnc : List Nat → List Nat → List Nat → List Nat) (iv : List Nat)
    (privateKey recipientPubkey message : List Char) : Option (List Char) :=
  (normalizePrivateKey privateKey).map fun nk =>
    let sharedX := ((gss nk ('0' :: '2' :: recipientPubkey)).drop 1).take 32
    let encrypted := aesEnc sharedX iv (utf8Encode message)
    btoa encrypted ++ ("?iv=".toList) ++ btoa iv

/-- `nip04DecryptOnly` from `crypto.ts`: probe the three IV separators, then
the JSON form, base64-decode both parts, require a 16-byte IV and a nonempty
ciphertext, derive the shared AES key, decrypt, and UTF-8-decode.  `aesDec`
abstracts AES-256-CBC decryption (`none` models a `crypto.subtle` rejection),
`jp` abstracts `JSON.parse`. -/
def nip04DecryptOnly (gss : List Char → List Char → List Nat)
    (aesDec : List Nat → List Nat → List Nat → Option (List Nat))
    (jp : List Char → Option CipherJson)
    (privateKey senderPubkey ciphertext : List Char) : Option (List Char) :=
  let seps := [("?iv=".toList), ("&iv=".toList), ("_iv=".toList)]
  let parts : Option (List Char × List Char) :=
    match seps.find? (fun sep => containsTok sep ciphertext) with
    | some sep => some (jsSplitTwo sep ciphertext)
    | none =>
      match jp ciphertext with
      | some j =>
        match j.cipherF, j.ivF with
        | some (JVal.jstr cs), some (JVal.jstr ivs) =>
          if truthy (JVal.jstr cs) && truthy (JVal.jstr ivs) then some (cs, ivs) else none
        | _, _ => none
      | none => none
  parts.bind fun p =>
    match atob p.1, atob p.2 with
    | some encryptedBytes, some ivBytes =>
      if ivBytes.length = 16 then
        if encryptedBytes.length ≠ 0 then
          (normalizePrivateKey privateKey).bind fun nk =>
            let sharedX := ((gss nk ('0' :: '2' :: senderPubkey)).drop 1).take 32
            (aesDec sharedX ivBytes encryptedBytes).map utf8Decode
        else none
      else none
    | _, _ => none

/-! ## Canonical event serialization and signing (`crypto.ts`) -/

/-- An event as consumed by `getEventHash`/`signEvent` (the optional `id` and
`sig` fields play no role in the hash preimage). -/
structure NostrEvent where
  pubkey : List Char
  created_at : Nat
  kind : Nat
  tags : List (List (List Char))
  content : List Char

/-- JSON string escaping as performed by `JSON.stringify`. -/
def jsonEscapeChar (c : Char) : List Char :=
  if c = '"' then ['\\', '"']
  else if c = '\\' then ['\\', '\\']
  else if c = '\x08' then ['\\', 'b']
  else if c = '\x09' then ['\\', 't']
  else if c = '\x0a' then ['\\', 'n']
  else if c = '\x0c' then ['\\', 'f']
  else if c = '\x0d' then ['\\', 'r']
  else if c.toNat < 0x20 then
    ['\\', 'u', '0', '0', hexDigits.getD (c.toNat / 16) 'x', hexDigits.getD (c.toNat % 16) 'x']
  else [c]

/-- Render a JSON string literal, quotes included. -/
def jsonRenderStr (s : List Char) : List Char :=
  '"' :: (s.map jsonEscapeChar).flatten ++ ['"']

/-- Join rendered elements with commas, as `JSON.stringify` does inside an
array (no whitespace). -/
def commaJoin : List (List Char) → List Char
  | [] => []
  | [x] => x
  | x :: y :: xs => x ++ ',' :: commaJoin (y :: xs)

/-- JSON documents produced by the canonical event serialization: numbers,
strings and arrays. -/
inductive JsonV where
  | jvnum (n : Nat)
  | jvstr (s : List Char)
  | jvarr (xs : List JsonV)

mutual

/-- `JSON.stringify` for `JsonV` documents (no whitespace). -/
def jsonRender : JsonV → List Char
  | JsonV.jvnum n => (Nat.repr n).toList
  | JsonV.jvstr s => jsonRenderStr s
  | JsonV.jvarr xs => '[' :: commaJoin (jsonRenderList xs) ++ [']']

/-- Render each array element. -/
def jsonRenderList : List JsonV → List (List Char)
  | [] => []
  | x :: xs => jsonRender x :: jsonRenderList xs

end

/-- The `tags` field as a JSON document. -/
def eventTagsJson (tags : List (List (List Char))) : JsonV :=
  JsonV.jvarr (tags.map (fun t => JsonV.jvarr (t.map JsonV.jvstr)))

/-- `getEventHash` from `crypto.ts`: `JSON.stringify` of the six-element
array, UTF-8 encode, SHA-256, hex.  `sha` abstracts the SHA-256 primitive. -/
def getEventHash (sha : List Nat → List Nat) (e : NostrEvent) : List Char :=
  let serialized := jsonRender (JsonV.jvarr
    [JsonV.jvnum 0, JsonV.jvstr e.pubkey, JsonV.jvnum e.created_at, JsonV.jvnum e.kind,
      eventTagsJson e.tags, JsonV.jvstr e.content])
  bytesToHex (sha (utf8Encode serialized))

/-- `signEvent` from `crypto.ts`: normalize the key, serialize the same
six-element array, hash it, and Schnorr-sign the hash with the key bytes.
`schnorrSign` abstracts BIP-340 signing `(hash, key)`, `sha` the SHA-256
primitive. -/
def signEvent (schnorrSign : List Nat → List Nat → List Nat) (sha : List Nat → List Nat)
    (e : NostrEvent) (privateKey : List Char) : Option (List Char) :=
  (normalizePrivateKey privateKey).bind fun nk =>
    let serialized := jsonRender (JsonV.jvarr
      [JsonV.jvnum 0, JsonV.jvstr e.pubkey, JsonV.jvnum e.created_at, JsonV.jvnum e.kind,
        eventTagsJson e.tags, JsonV.jvstr e.content])
    let hash := sha (utf8Encode serialized)
    (hexPairsToBytes nk).map fun kb => bytesToHex (schnorrSign hash kb)

/-- The canonical serialization exactly as the specification words it: the
concatenation `[0,` pubkey `,` created_at `,` kind `,` tags `,` content `]`
with JSON rendering of each field, no extra whitespace, fields in exactly
that order. -/
def canonicalSerializeSpec (e : NostrEvent) : List Char :=
  ("[0,".toList) ++ jsonRenderStr e.pubkey ++ [','] ++ (Nat.repr e.created_at).toList ++ [','] ++
    (Nat.repr e.kind).toList ++ [','] ++ jsonRender (eventTagsJson e.tags) ++ [','] ++
    jsonRenderStr e.content ++ [']']

/-! ## The streaming notes aggregator (`fetchNotesStreaming` in the notes hook)

One logical query opens one WebSocket per relay; all callbacks share the
query-scoped mutable variables `seenIds`, `completedRelays`,
`hasReceivedAny`, and the two timers.  Each callback invocation is one atomic
step on `StreamState`; `emitted` records the arguments of the `onNote` calls
and `onCompleteCount` counts the `onComplete` invocations.  The trace of
steps is chosen by the environment subject to `validStreamStep`: a timer
fires only while armed, and each of the four sockets delivers at most one
error callback and at most one close callback. -/

/-- The relay list length (`RELAYS.length`) in the notes hook. -/
def RELAYS_COUNT : Nat := 4

/-- `NOTES_PER_PAGE` in the notes hook. -/
def NOTES_PER_PAGE : Nat := 20

/-- `RELAY_TIMEOUT` (milliseconds) in the notes hook. -/
def RELAY_TIMEOUT : Nat := 5000

/-- `FIRST_RESULT_TIMEOUT` (milliseconds) in the notes hook. -/
def FIRST_RESULT_TIMEOUT : Nat := 2000

/-- The parsed `data[2]` payload of an `["EVENT", subId, data[2]]` relay
message, before the hook turns it into a `NostrNote`. -/
structure RawNoteEvent where
  id : List Char
  pubkey : List Char
  content : List Char
  created_at : Int
  kind : Nat
  tags : Option (List (List (List Char)))
  sig : List Char
deriving DecidableEq, Repr

/-- The `NostrNote` record the hook builds and passes to `onNote`. -/
structure NostrNote where
  id : List Char
  pubkey : List Char
  content : List Char
  created_at : Int
  tags : List (List (List Char))
  kind : Nat
  sig : List Char
deriving DecidableEq, Repr

/-- The note constructed in the `onmessage` handler (`tags` defaults to `[]`,
`kind` is pinned to 1). -/
def noteOfRaw (e : RawNoteEvent) : NostrNote :=
  { id := e.id, pubkey := e.pubkey, content := e.content, created_at := e.created_at,
    tags := e.tags.getD [], kind := 1, sig := e.sig }

/-- One atomic callback invocation delivered to the query. -/
inductive StreamEvent where
  | message (e : RawNoteEvent)
  | eose
  | errorCb
  | closeCb
  | ctorFail
  | hardTimeout
  | earlyTimeout
deriving DecidableEq, Repr

/-- The query-scoped mutable state of one `fetchNotesStreaming` call,
together with the observable callback history. -/
structure StreamState where
  seenIds : List (List Char)
  emitted : List NostrNote
  completedRelays : Nat
  errorCbs : Nat
  closeCbs : Nat
  hasReceivedAny : Bool
  hardTimerActive : Bool
  earlyTimerActive : Bool
  onCompleteCount : Nat
deriving DecidableEq, Repr

/-- State right after `fetchNotesStreaming` returns: nothing seen, the hard
timer armed, the early-settle timer not yet armed. -/
def initStreamState : StreamState :=
  { seenIds := [], emitted := [], completedRelays := 0, errorCbs := 0, closeCbs := 0,
    hasReceivedAny := false, hardTimerActive := true, earlyTimerActive := false,
    onCompleteCount := 0 }

/-- The `checkComplete` closure of the hook: once `completedRelays` has
reached the relay count it clears both timers and invokes `onComplete` —
every time it is called, with no one-shot guard. -/
def checkComplete (s : StreamState) : StreamState :=
  if RELAYS_COUNT ≤ s.completedRelays then
    { s with
      hardTimerActive := false
      earlyTimerActive := false
      onCompleteCount := s.onCompleteCount + 1 }
  else s

/-- One callback invocation of the hook, translated handler for handler:
`onmessage` deduplicates against `seenIds`, emits, and arms the early-settle
timer on the very first note; `onerror`/`onclose` increment
`completedRelays` and run `checkComplete`; a WebSocket-constructor failure
only increments the counter; the hard timer closes the connections and calls
`onComplete`; the early-settle timer calls `onComplete` only when at least
half a page of unique notes has been seen. -/
def streamStep (s : StreamState) : StreamEvent → StreamState
  | StreamEvent.message e =>
    if e.kind = 1 then
      if e.id ∈ s.seenIds then s
      else
        let s2 := { s with seenIds := e.id :: s.seenIds, emitted := s.emitted ++ [noteOfRaw e] }
        if s.hasReceivedAny then s2
        else { s2 with hasReceivedAny := true, earlyTimerActive := true }
    else s
  | StreamEvent.eose => s
  | StreamEvent.errorCb =>
    checkComplete { s with completedRelays := s.completedRelays + 1, errorCbs := s.errorCbs + 1 }
  | StreamEvent.closeCb =>
    checkComplete { s with completedRelays := s.completedRelays + 1, closeCbs := s.closeCbs + 1 }
  | StreamEvent.ctorFail => { s with completedRelays := s.completedRelays + 1 }
  | StreamEvent.hardTimeout =>
    { s with hardTimerActive := false, onCompleteCount := s.onCompleteCount + 1 }
  | StreamEvent.earlyTimeout =>
    let s2 := { s with earlyTimerActive := false }
    if NOTES_PER_PAGE / 2 ≤ s2.seenIds.length then
      { s2 with hardTimerActive := false, onCompleteCount := s2.onCompleteCount + 1 }
    else s2

/-- Environment constraints making a step realizable: a timer only fires
while armed, and each of the four sockets delivers at most one error and at
most one close callback.  (An `onclose` after `closeConnections()` is
realizable: closing a socket fires its close event; a failed connection fires
error and then close.) -/
def validStreamStep (s : StreamState) : StreamEvent → Bool
  | StreamEvent.hardTimeout => s.hardTimerActive
  | StreamEvent.earlyTimeout => s.earlyTimerActive
  | StreamEvent.errorCb => s.errorCbs < RELAYS_COUNT
  | StreamEvent.closeCb => s.closeCbs < RELAYS_COUNT
  | _ => true

/-- Run a trace of callback invocations from a state. -/
def runStreamFrom (s : StreamState) : List StreamEvent → StreamState
  | [] => s
  | e :: t => runStreamFrom (streamStep s e) t

/-- Run a trace from the initial state of one logical query. -/
def runStream (t : List StreamEvent) : StreamState :=
  runStreamFrom initStreamState t

/-- Realizability of a whole trace from a state. -/
def validStreamTraceFrom (s : StreamState) : List StreamEvent → Bool
  | [] => true
  | e :: t => validStreamStep s e && validStreamTraceFrom (streamStep s e) t

/-- Realizability of a whole trace of one logical query. -/
def validStreamTrace (t : List StreamEvent) : Bool :=
  validStreamTraceFrom initStreamState t

/-- The kind-1 payloads of the `EVENT` messages of a trace, in order. -/
def kind1Events : List StreamEvent → List RawNoteEvent
  | [] => []
  | StreamEvent.message e :: t => if e.kind = 1 then e :: kind1Events t else kind1Events t
  | _ :: t => kind1Events t

/-- Keep the first occurrence of every id not already in `seen`, dropping
later duplicates — the reference description of first-relay-wins
deduplication. -/
def dedupFirstAux (seen : List (List Char)) : List RawNoteEvent → List NostrNote
  | [] => []
  | e :: es =>
    if e.id ∈ seen then dedupFirstAux seen es
    else noteOfRaw e :: dedupFirstAux (e.id :: seen) es

/-! ## The signing request/response exchange (`requestSignature` in `connect.ts`)

One signing request opens one socket, publishes the encrypted request, arms a
60-second timeout, and then handles responses.  Each callback invocation is
one atomic step on `SignState`; `settled` records the first `resolve`/
`reject` of the returned promise (later ones are no-ops, as for a JavaScript
promise).  The decrypt/parse of an incoming event is abstracted: the
environment delivers either a parsed `RpcMessage` or a `garbled` step (a
message whose decrypt or parse threw, which the handler swallows). -/

/-- `60000` ms, the fixed response timeout of `requestSignature`. -/
def SIGNING_TIMEOUT_MS : Nat := 60000

/-- Terminal outcome of the promise returned by `requestSignature`. -/
inductive SignOutcome where
  | resolved (v : JVal)
  | rejectedTimeout
  | rejectedSigning
  | rejectedConnection
deriving DecidableEq, Repr

/-- One atomic callback invocation delivered to the pending request. -/
inductive SignEvent2 where
  | response (r : RpcMessage)
  | garbled
  | timeoutFire
  | socketError
deriving DecidableEq, Repr

/-- State of one pending signing request after `onopen` has armed the
timeout. -/
structure SignState where
  settled : Option SignOutcome
  timeoutActive : Bool
  socketOpen : Bool
deriving DecidableEq, Repr

/-- State right after the request has been published and the timeout armed. -/
def initSignState : SignState :=
  { settled := none, timeoutActive := true, socketOpen := true }

/-- Settle the promise unless it is already settled (JavaScript `resolve` /
`reject` after settlement are no-ops). -/
def trySettle (s : SignState) (o : SignOutcome) : SignState :=
  if s.settled = none then { s with settled := some o } else s

/-- The `else if (response.error)` arm of the response handler: reject only
on a truthy `error`. -/
def signErrCheck (s2 : SignState) (r : RpcMessage) : SignState :=
  match r.error with
  | some ev => if truthy ev then trySettle s2 SignOutcome.rejectedSigning else s2
  | none => s2

/-- One callback invocation of `requestSignature`, translated handler for
handler.  On an id-matching response the code always clears the timeout and
closes the socket first; it then resolves on a truthy `result` whose
`JSON.parse` succeeds (`pr` abstracts that parse; `none` models a throw,
swallowed by the handler), rejects on a truthy `error` when `result` is
falsy, and otherwise does nothing further.  The timeout rejects with the
timeout error and closes the socket; a socket error clears the timeout and
rejects with the connection error. -/
def signStep (pr : JVal → Option JVal) (requestId : List Char) (s : SignState) :
    SignEvent2 → SignState
  | SignEvent2.response r =>
    if r.id = some (JVal.jstr requestId) then
      let s2 := { s with timeoutActive := false, socketOpen := false }
      match r.result with
      | some rv =>
        if truthy rv then
          match pr rv with
          | some v => trySettle s2 (SignOutcome.resolved v)
          | none => s2
        else signErrCheck s2 r
      | none => signErrCheck s2 r
    else s
  | SignEvent2.garbled => s
  | SignEvent2.timeoutFire =>
    trySettle { s with timeoutActive := false, socketOpen := false } SignOutcome.rejectedTimeout
  | SignEvent2.socketError =>
    trySettle { s with timeoutActive := false } SignOutcome.rejectedConnection

/-- Environment constraints making a step realizable: messages and socket
errors require the socket to be open, the timeout requires its timer to be
armed. -/
def validSignStep (s : SignState) : SignEvent2 → Bool
  | SignEvent2.response _ => s.socketOpen
  | SignEvent2.garbled => s.socketOpen
  | SignEvent2.timeoutFire => s.timeoutActive
  | SignEvent2.socketError => s.socketOpen

/-- Run a trace of callback invocations from a state. -/
def runSignFrom (pr : JVal → Option JVal) (requestId : List Char) (s : SignState) :
    List SignEvent2 → SignState
  | [] => s
  | e :: t => runSignFrom pr requestId (signStep pr requestId s e) t

/-- Realizability of a whole trace from a state (the state evolves by the
same `signStep` as the run itself). -/
def validSignTraceFrom (pr : JVal → Option JVal) (requestId : List Char) (s : SignState) :
    List SignEvent2 → Bool
  | [] => true
  | e :: t => validSignStep s e && validSignTraceFrom pr requestId (signStep pr requestId s e) t

/-! ## Follow counting (`useProfileData` in the profile hook) -/

/-- JavaScript truthiness of `tag[1]` when the tag entries are strings: the
element must exist and be nonempty. -/
def truthyStrOpt : Option (List Char) → Bool
  | some s => !s.isEmpty
  | none => false

/-- The `p`-tag filter of the kind-3 handler in `useProfileData`:
`tag[0] === "p" && tag[1]`. -/
def followCount (tags : List (List (List Char))) : Nat :=
  (tags.filter (fun tag => tag.head? == some ("p".toList) && truthyStrOpt tag[1]?)).length

/-- The follow count exactly as the claim words it: the number of tags whose
first element is the string `"p"`. -/
def followCountClaim (tags : List (List (List Char))) : Nat :=
  (tags.filter (fun tag => tag.head? == some ("p".toList))).length

/-- The follow count as amended: tags whose first element is `"p"` and whose
second element is present and nonempty. -/
def followCountAmended (tags : List (List (List Char))) : Nat :=
  (tags.filter (fun tag => tag.head? == some ("p".toList) && tag[1]?.getD [] != [])).length

/-- The kind-3 `onmessage` handler of `useProfileData`, reduced to the value
it reports through `setFollowingCount`: only the first kind-3 `EVENT` payload
is counted (`followsReceived` latches), and `tags` defaults to `[]`. -/
def followsMessageCount (followsReceived : Bool) (evKind : Nat)
    (tags : Option (List (List (List Char)))) : Option Nat :=
  if evKind = 3 ∧ followsReceived = false then some (followCount (tags.getD []))
  else none

/-! ## Auxiliary definitions for the statements below -/

/-- The versioned-envelope condition of the `nip04Decrypt` dispatch as a
standalone test: the ciphertext base64-decodes, the first byte is `0x02`, and
the decoded length is at least 65. -/
def versionedCond (s : List Char) : Bool :=
  match atob s with
  | some d => d.head? == some 2 && decide (65 ≤ d.length)
  | none => false

/-- Whether the ciphertext contains one of the three recognized IV separator
tokens. -/
def hasIvSeparator (s : List Char) : Bool :=
  containsTok ("?iv=".toList) s || containsTok ("&iv=".toList) s ||
    containsTok ("_iv=".toList) s

/-- The padding characters `btoa` appends for a given input length. -/
def b64pad (n : Nat) : List Char :=
  if n % 3 = 1 then ['=', '='] else if n % 3 = 2 then ['='] else []

/-- A realizable callback trace of one notes query in which all four relay
connections fail: each socket fires its error callback and then its close
callback, as a failed WebSocket connection does. -/
def c1FailTrace : List StreamEvent :=
  [StreamEvent.errorCb, StreamEvent.closeCb, StreamEvent.errorCb, StreamEvent.closeCb,
    StreamEvent.errorCb, StreamEvent.closeCb, StreamEvent.errorCb, StreamEvent.closeCb]

/-- The spec's fixture event: `pubkey` is `"aa"` repeated, `created_at`
`1700000000`, kind 1, no tags, content `"hello"`. -/
def fixtureEvent : NostrEvent :=
  { pubkey := List.replicate 64 'a', created_at := 1700000000, kind := 1, tags := [],
    content := "hello".toList }

/-- A 64-hex-character private key for witnesses. -/
def fixtureKey : List Char := List.replicate 64 'a'

/-- The byte form of `fixtureKey` (`0xaa` repeated 32 times). -/
def fixtureKeyBytes : List Nat := List.replicate 32 170

/-- An id-matching signing response with neither a `result` nor an `error`
field. -/
def hangResponse : RpcMessage :=
  { id := some (JVal.jstr ("rid".toList)), method := none, result := none, error := none }

/-! # Theorems -/

/-! ## C1: completion latch of `fetchNotesStreaming` -/

/-- C1: the claim asserts that `onComplete` is invoked exactly once per
logical query and that triggers firing after completion are no-ops.  The code
has no one-shot latch: on the realizable trace in which all four relay
connections fail (each socket firing its error callback and then its close
callback, so `completedRelays` is incremented twice per socket),
`checkComplete` invokes `onComplete` on every callback from the fourth
onward — five invocations in total. -/
theorem fetchNotesStreaming_onComplete_not_once :
    validStreamTrace c1FailTrace = true ∧
    (runStream c1FailTrace).onCompleteCount = 5 ∧
    ¬ (runStream c1FailTrace).onCompleteCount ≤ 1 := by
  decide

/-! ## C6: the connect-acknowledgement classifier -/

/-- C6 counterexample: the claim reads the fourth condition as `result` being
present and `error` absent.  The code tests JavaScript truthiness instead: a
message whose `result` field is present but holds the empty string (and has
no other field) satisfies the claim's classifier but not the code's. -/
theorem isConnectResponse_presence_disagrees :
    isConnectResponse ("s".toList)
      { id := none, method := none, result := some (JVal.jstr []), error := none } = false ∧
    isConnectAckClaim ("s".toList)
      { id := none, method := none, result := some (JVal.jstr []), error := none } = true := by
  decide

/-- C6 (amended): a decrypted control message is classified as a connect
acknowledgement if and only if one of: `result` is the string `"ack"`;
`result` is the session secret string; `method` is the string `"connect"`;
`result` is truthy and `error` is falsy or absent; or `id` is truthy and
`result` is present (possibly falsy) — with no additional condition and none
omitted. -/
theorem isConnectResponse_characterization (secret : List Char) (r : RpcMessage) :
    isConnectResponse secret r = true ↔
      (r.result = some (JVal.jstr ("ack".toList)) ∨
        r.result = some (JVal.jstr secret) ∨
        r.method = some (JVal.jstr ("connect".toList)) ∨
        (truthyOpt r.result = true ∧ truthyOpt r.error = false) ∨
        (truthyOpt r.id = true ∧ r.result ≠ none)) := by
  simp [isConnectResponse, Bool.or_eq_true, Bool.and_eq_true, beq_iff_eq,
    Bool.not_eq_true', Option.ne_none_iff_isSome]
  tauto

/-! ## C9: the follow count of a contact-list event -/

/-- C9 counterexample: a kind-3 event whose only tag is `["p"]` (a `"p"` tag
with no second element).  The claim counts every tag whose first element is
`"p"` and so reports 1; the code additionally requires a truthy `tag[1]` and
reports 0. -/
theorem followCount_drops_valueless_p_tags :
    followsMessageCount false 3 (some [[("p".toList)]]) = some 0 ∧
    followCountClaim [[("p".toList)]] = 1 := by
  decide

/-- C9 (amended): the follow count reported for the first received kind-3
event equals the number of tags whose first element is the string `"p"` and
whose second element is present and nonempty. -/
theorem followCount_p_tags_with_value (tags : List (List (List Char))) (b : Bool) (k : Nat)
    (ot : Option (List (List (List Char)))) :
    followCount tags = followCountAmended tags ∧
    followsMessageCount b k ot =
      (if k = 3 ∧ b = false then some (followCountAmended (ot.getD [])) else none) := by
  have h : ∀ ts : List (List (List Char)), followCount ts = followCountAmended ts := by
    intro ts
    unfold followCount followCountAmended
    congr 1
    apply List.filter_congr
    intro t _
    cases ht : t[1]? with
    | none => simp [truthyStrOpt, ht]
    | some s => cases s <;> simp [truthyStrOpt, ht]
  refine ⟨h tags, ?_⟩
  unfold followsMessageCount
  split <;> simp [h]

/-! ## C7 and C10: the response handling of `requestSignature` -/

/-- C7 counterexample: an id-matching response carrying both a truthy
`result` and an `error` field.  The claim says an id-matching response with
an `error` field fails with the signing-rejected error; the code tests
`result` first and resolves instead. -/
theorem requestSignature_result_beats_error :
    (signStep (fun v => some v) ("rid".toList) initSignState
      (SignEvent2.response
        { id := some (JVal.jstr ("rid".toList)), method := none,
          result := some (JVal.jstr ("x".toList)),
          error := some (JVal.jstr ("boom".toList)) })).settled
      = some (SignOutcome.resolved (JVal.jstr ("x".toList))) ∧
    some (SignOutcome.resolved (JVal.jstr ("x".toList))) ≠ some SignOutcome.rejectedSigning := by
  decide

/-- C7 (amended): responses whose decrypted `id` differs from the request id
leave the pending request untouched; the fixed timeout is 60 seconds and
firing it rejects with the signing-timeout error; an id-matching response
with a truthy, parseable `result` resolves with the parsed value — taking
precedence over any `error` field; an id-matching response with a falsy or
absent `result` and a truthy `error` rejects with the signing-rejected
error.  In every id-matching case the timeout is cleared and the socket
closed. -/
theorem requestSignature_response_protocol (pr : JVal → Option JVal) (rid : List Char)
    (s : SignState) :
    SIGNING_TIMEOUT_MS = 60000 ∧
    (∀ r : RpcMessage, r.id ≠ some (JVal.jstr rid) →
      signStep pr rid s (SignEvent2.response r) = s) ∧
    (s.settled = none →
      (signStep pr rid s SignEvent2.timeoutFire).settled = some SignOutcome.rejectedTimeout) ∧
    (∀ (r : RpcMessage) (rv v : JVal), r.id = some (JVal.jstr rid) → s.settled = none →
      r.result = some rv → truthy rv = true → pr rv = some v →
      signStep pr rid s (SignEvent2.response r) =
        { settled := some (SignOutcome.resolved v), timeoutActive := false, socketOpen := false }) ∧
    (∀ (r : RpcMessage) (ev : JVal), r.id = some (JVal.jstr rid) → s.settled = none →
      truthyOpt r.result = false → r.error = some ev → truthy ev = true →
      signStep pr rid s (SignEvent2.response r) =
        { settled := some SignOutcome.rejectedSigning, timeoutActive := false,
          socketOpen := false }) := by
  refine ⟨rfl, ?_, ?_, ?_, ?_⟩
  · intro r hr
    simp [signStep, hr]
  · intro hs
    simp [signStep, trySettle, hs]
  · intro r rv v hid hs hres htr hpr
    simp [signStep, hid, hres, htr, hpr, trySettle, hs]
  · intro r ev hid hs hres herr htr
    cases hr : r.result with
    | none => simp [signStep, hid, hr, signErrCheck, herr, htr, trySettle, hs]
    | some rv =>
      have : truthy rv = false := by simpa [truthyOpt, hr] using hres
      simp [signStep, hid, hr, this, signErrCheck, herr, htr, trySettle, hs]

/-- C7 witness: the signing-rejected arm of the protocol theorem at a
concrete error-only response. -/
theorem requestSignature_response_protocol_witness :
    signStep (fun v => some v) ("rid".toList) initSignState
      (SignEvent2.response
        { id := some (JVal.jstr ("rid".toList)), method := none, result := none,
          error := some (JVal.jstr ("no".toList)) })
      = { settled := some SignOutcome.rejectedSigning, timeoutActive := false,
          socketOpen := false } :=
  (requestSignature_response_protocol (fun v => some v) ("rid".toList) initSignState).2.2.2.2
    _ (JVal.jstr ("no".toList)) rfl rfl (by decide) rfl (by decide)

/-- From a state whose socket is closed and whose timeout is cleared, no
callback step is realizable, so every realizable trace is empty. -/
theorem validSignTraceFrom_closed_nil (pr : JVal → Option JVal) (rid : List Char)
    (s : SignState) (hso : s.socketOpen = false) (hta : s.timeoutActive = false)
    (t : List SignEvent2) (hv : validSignTraceFrom pr rid s t = true) : t = [] := by
  cases t with
  | nil => rfl
  | cons e t =>
    exfalso
    have hstep : validSignStep s e = true := by
      have := hv
      simp [validSignTraceFrom, Bool.and_eq_true] at this
      exact this.1
    cases e <;> simp [validSignStep, hso, hta] at hstep

/-- C10: an id-matching response with neither a truthy `result` nor a truthy
`error` (or a truthy `result` whose `JSON.parse` throws) clears the timeout
and closes the socket without settling the promise, and from that state no
realizable callback trace can ever settle it: the caller awaits forever. -/
theorem requestSignature_can_hang (pr : JVal → Option JVal) (rid : List Char)
    (r : RpcMessage) (hid : r.id = some (JVal.jstr rid))
    (herr : truthyOpt r.error = false)
    (hres : truthyOpt r.result = false ∨
      (∃ rv, r.result = some rv ∧ truthy rv = true ∧ pr rv = none)) :
    (signStep pr rid initSignState (SignEvent2.response r)).settled = none ∧
    (signStep pr rid initSignState (SignEvent2.response r)).timeoutActive = false ∧
    (signStep pr rid initSignState (SignEvent2.response r)).socketOpen = false ∧
    ∀ t : List SignEvent2,
      validSignTraceFrom pr rid (signStep pr rid initSignState (SignEvent2.response r)) t = true →
      (runSignFrom pr rid (signStep pr rid initSignState (SignEvent2.response r)) t).settled
        = none := by
  have hstate : signStep pr rid initSignState (SignEvent2.response r) =
      { settled := none, timeoutActive := false, socketOpen := false } := by
    rcases hres with hres | ⟨rv, hrv, htr, hpr⟩
    · cases hr : r.result with
      | none =>
        cases he : r.error with
        | none => simp [signStep, hid, hr, signErrCheck, he, initSignState]
        | some ev =>
          have : truthy ev = false := by simpa [truthyOpt, he] using herr
          simp [signStep, hid, hr, signErrCheck, he, this, initSignState]
      | some rv =>
        have htr : truthy rv = false := by simpa [truthyOpt, hr] using hres
        cases he : r.error with
        | none => simp [signStep, hid, hr, htr, signErrCheck, he, initSignState]
        | some ev =>
          have : truthy ev = false := by simpa [truthyOpt, he] using herr
          simp [signStep, hid, hr, htr, signErrCheck, he, this, initSignState]
    · simp [signStep, hid, hrv, htr, hpr, initSignState]
  refine ⟨by rw [hstate], by rw [hstate], by rw [hstate], ?_⟩
  intro t hv
  have ht : t = [] := by
    apply validSignTraceFrom_closed_nil pr rid _ (by rw [hstate]) (by rw [hstate]) t hv
  subst ht
  simpa [runSignFrom] using by rw [hstate]

/-- C10 witness: the hang theorem at the concrete response with no `result`
and no `error` field, with the empty continuation trace. -/
theorem requestSignature_can_hang_witness :
    (signStep (fun v => some v) ("rid".toList) initSignState
      (SignEvent2.response hangResponse)).settled = none ∧
    (runSignFrom (fun v => some v) ("rid".toList)
      (signStep (fun v => some v) ("rid".toList) initSignState
        (SignEvent2.response hangResponse)) []).settled = none := by
  have h := requestSignature_can_hang (fun v => some v) ("rid".toList) hangResponse
    (by decide) (by decide) (Or.inl (by decide))
  exact ⟨h.1, h.2.2.2 [] (by decide)⟩

/-! ## C3: the decrypt format dispatch -/

/-- C3: the `nip04Decrypt` dispatch classifies in exactly the claimed order:
a ciphertext that base64-decodes with first byte `0x02` and length at least
65 takes the versioned path regardless of what `JSON.parse` would say about
the raw string; otherwise an IV separator token selects the legacy path;
otherwise a JSON parse with truthy `ciphertext` and `iv` fields selects the
legacy path; otherwise the dispatch fails with the unknown-format error. -/
theorem nip04Decrypt_dispatch :
    (∀ (jp : List Char → Option CipherJson) (s : List Char), versionedCond s = true →
      classifyCipher jp s = CipherFormat.versioned) ∧
    (∀ (jp : List Char → Option CipherJson) (s : List Char), versionedCond s = false →
      hasIvSeparator s = true → classifyCipher jp s = CipherFormat.legacySep) ∧
    (∀ (jp : List Char → Option CipherJson) (s : List Char) (j : CipherJson),
      versionedCond s = false → hasIvSeparator s = false → jp s = some j →
      (truthyOpt j.cipherF && truthyOpt j.ivF) = true →
      classifyCipher jp s = CipherFormat.legacyJson) ∧
    (∀ (jp : List Char → Option CipherJson) (s : List Char) (j : CipherJson),
      versionedCond s = false → hasIvSeparator s = false → jp s = some j →
      (truthyOpt j.cipherF && truthyOpt j.ivF) = false →
      classifyCipher jp s = CipherFormat.unknownFmt) ∧
    (∀ (jp : List Char → Option CipherJson) (s : List Char),
      versionedCond s = false → hasIvSeparator s = false → jp s = none →
      classifyCipher jp s = CipherFormat.unknownFmt) := by
  have hsniff : ∀ (jp : List Char → Option CipherJson) (s : List Char),
      versionedCond s = false → classifyCipher jp s = nip04SniffLegacy jp s := by
    intro jp s hv
    unfold classifyCipher
    unfold versionedCond at hv
    cases hd : atob s with
    | none => simp
    | some d =>
      rw [hd] at hv
      simp only [Bool.and_eq_true, beq_iff_eq, decide_eq_true_eq] at hv
      simp only []
      rw [if_neg]
      intro hcond
      rcases hcond with ⟨hh, hl⟩
      rw [hh] at hv
      simp at hv
      omega
  have hsep : ∀ (jp : List Char → Option CipherJson) (s : List Char),
      hasIvSeparator s = true → nip04SniffLegacy jp s = CipherFormat.legacySep := by
    intro jp s hs
    unfold nip04SniffLegacy
    rw [show (containsTok ("?iv=".toList) s || containsTok ("&iv=".toList) s ||
      containsTok ("_iv=".toList) s) = hasIvSeparator s from rfl, hs]
    simp
  have hnosep : ∀ (jp : List Char → Option CipherJson) (s : List Char),
      hasIvSeparator s = false →
      nip04SniffLegacy jp s =
        (match jp s with
         | some j =>
           if truthyOpt j.cipherF && truthyOpt j.ivF then CipherFormat.legacyJson
           else CipherFormat.unknownFmt
         | none => CipherFormat.unknownFmt) := by
    intro jp s hs
    unfold nip04SniffLegacy
    rw [show (containsTok ("?iv=".toList) s || containsTok ("&iv=".toList) s ||
      containsTok ("_iv=".toList) s) = hasIvSeparator s from rfl, hs]
    simp
  refine ⟨?_, ?_, ?_, ?_, ?_⟩
  · intro jp s hv
    unfold versionedCond at hv
    unfold classifyCipher
    cases hd : atob s with
    | none => rw [hd] at hv; simp at hv
    | some d =>
      rw [hd] at hv
      simp only [Bool.and_eq_true, beq_iff_eq, decide_eq_true_eq] at hv
      simp [hv.1, hv.2]
  · intro jp s hv hs
    rw [hsniff jp s hv, hsep jp s hs]
  · intro jp s j hv hs hj ht
    rw [hsniff jp s hv, hnosep jp s hs, hj]
    simp [ht]
  · intro jp s j hv hs hj ht
    rw [hsniff jp s hv, hnosep jp s hs, hj]
    simp [ht]
  · intro jp s hv hs hj
    rw [hsniff jp s hv, hnosep jp s hs, hj]

/-- C3 witness: all five arms of the dispatch theorem at concrete inputs.
The versioned arm uses a `JSON.parse` oracle that claims every string parses
with truthy fields, showing the base64 probe wins. -/
theorem nip04Decrypt_dispatch_witness :
    classifyCipher (fun _ => some { cipherF := some JVal.jobj, ivF := some JVal.jobj })
      ('A' :: 'g' :: List.replicate 86 'A') = CipherFormat.versioned ∧
    classifyCipher (fun _ => none) ("abc?iv=xyz".toList) = CipherFormat.legacySep ∧
    classifyCipher
      (fun _ => some
        { cipherF := some (JVal.jstr ("QQ==".toList))
          ivF := some (JVal.jstr ("QQ==".toList)) })
      ("ab!cd".toList) = CipherFormat.legacyJson ∧
    classifyCipher (fun _ => some { cipherF := some (JVal.jstr []), ivF := none })
      ("ab!cd".toList) = CipherFormat.unknownFmt ∧
    classifyCipher (fun _ => none) ("!!!".toList) = CipherFormat.unknownFmt := by
  refine ⟨nip04Decrypt_dispatch.1 _ _ (by decide),
    nip04Decrypt_dispatch.2.1 _ _ (by decide) (by decide),
    nip04Decrypt_dispatch.2.2.1 _ _ _ (by decide) (by decide) rfl (by decide),
    nip04Decrypt_dispatch.2.2.2.1 _ _ _ (by decide) (by decide) rfl (by decide),
    nip04Decrypt_dispatch.2.2.2.2 _ _ (by decide) (by decide) rfl⟩

/-! ## C5: canonical serialization, hashing and signing -/

/-- The six-element array rendered by `JSON.stringify` equals the
specification's comma-joined concatenation with no extra whitespace. -/
theorem jsonRender_sixArray (e : NostrEvent) :
    jsonRender (JsonV.jvarr [JsonV.jvnum 0, JsonV.jvstr e.pubkey, JsonV.jvnum e.created_at,
      JsonV.jvnum e.kind, eventTagsJson e.tags, JsonV.jvstr e.content]) =
    canonicalSerializeSpec e := by
  show '[' :: commaJoin (jsonRenderList _) ++ [']'] = _
  simp only [jsonRenderList, commaJoin, jsonRender, canonicalSerializeSpec]
  have h0 : (Nat.repr 0).data = ['0'] := by decide
  simp [List.append_assoc, h0]

/-- C5: `getEventHash` is the hex SHA-256 of the UTF-8 bytes of the canonical
serialization `[0, pubkey, created_at, kind, tags, content]` (no whitespace,
fields in exactly that order), and `signEvent` signs the SHA-256 of exactly
the same preimage bytes, so the serialization is bit-for-bit shared by both
operations. -/
theorem getEventHash_signEvent_canonical (sha : List Nat → List Nat)
    (sgn : List Nat → List Nat → List Nat) (e : NostrEvent) (priv nk : List Char)
    (kb : List Nat) (h1 : normalizePrivateKey priv = some nk)
    (h2 : hexPairsToBytes nk = some kb) :
    getEventHash sha e = bytesToHex (sha (utf8Encode (canonicalSerializeSpec e))) ∧
    signEvent sgn sha e priv
      = some (bytesToHex (sgn (sha (utf8Encode (canonicalSerializeSpec e))) kb)) := by
  constructor
  · show bytesToHex (sha (utf8Encode (jsonRender _))) = _
    rw [jsonRender_sixArray]
  · show (normalizePrivateKey priv).bind _ = _
    rw [h1]
    show (hexPairsToBytes nk).map _ = _
    rw [h2]
    show some (bytesToHex (sgn (sha (utf8Encode (jsonRender _))) kb)) = _
    rw [jsonRender_sixArray]

/-- C5 witness: the hash/sign preimage agreement at the spec's fixture event
with identity-like primitive instantiations, and the fixture's canonical
serialization spelled out as a literal. -/
theorem getEventHash_signEvent_canonical_witness :
    getEventHash (fun bs => bs) fixtureEvent
      = bytesToHex (utf8Encode (canonicalSerializeSpec fixtureEvent)) ∧
    signEvent (fun h k => h ++ k) (fun bs => bs) fixtureEvent fixtureKey
      = some (bytesToHex (utf8Encode (canonicalSerializeSpec fixtureEvent) ++ fixtureKeyBytes)) ∧
    canonicalSerializeSpec fixtureEvent =
      ("[0,\"aaaaaaaaaaaaaaaaaaaaaaaaaaaaaaaaaaaaaaaaaaaaaaaaaaaaaaaaaaaaaaaa\",1700000000,1,[],\"hello\"]").toList := by
  have h := getEventHash_signEvent_canonical (fun bs => bs) (fun h k => h ++ k) fixtureEvent
    fixtureKey fixtureKey fixtureKeyBytes (by decide) (by decide)
  exact ⟨h.1, h.2, by decide⟩

/-! ## C4: per-query deduplication -/

/-- `checkComplete` never touches the emitted notes. -/
theorem checkComplete_emitted (s : StreamState) : (checkComplete s).emitted = s.emitted := by
  unfold checkComplete; split <;> rfl

/-- `checkComplete` never touches the dedup set. -/
theorem checkComplete_seenIds (s : StreamState) : (checkComplete s).seenIds = s.seenIds := by
  unfold checkComplete; split <;> rfl

/-- The emitted notes of a run are the state's notes extended by
first-occurrence deduplication of the incoming kind-1 events. -/
theorem runStreamFrom_emitted_eq (t : List StreamEvent) : ∀ s : StreamState,
    (runStreamFrom s t).emitted = s.emitted ++ dedupFirstAux s.seenIds (kind1Events t) := by
  induction t with
  | nil => intro s; simp [runStreamFrom, kind1Events, dedupFirstAux]
  | cons e t ih =>
    intro s
    rw [show runStreamFrom s (e :: t) = runStreamFrom (streamStep s e) t from rfl, ih]
    cases e with
    | message ev =>
      by_cases hk : ev.kind = 1
      · by_cases hm : ev.id ∈ s.seenIds
        · simp [streamStep, hk, hm, kind1Events, dedupFirstAux]
        · by_cases hr : s.hasReceivedAny <;>
            simp [streamStep, hk, hm, hr, kind1Events, dedupFirstAux, List.append_assoc]
      · simp [streamStep, hk, kind1Events]
    | eose => simp [streamStep, kind1Events]
    | errorCb => simp [streamStep, checkComplete_emitted, checkComplete_seenIds, kind1Events]
    | closeCb => simp [streamStep, checkComplete_emitted, checkComplete_seenIds, kind1Events]
    | ctorFail => simp [streamStep, kind1Events]
    | hardTimeout => simp [streamStep, kind1Events]
    | earlyTimeout =>
      by_cases hh : NOTES_PER_PAGE / 2 ≤ s.seenIds.length <;>
        simp [streamStep, hh, kind1Events]

/-- First-occurrence deduplication emits pairwise distinct ids, none of them
in the starting set. -/
theorem dedupFirstAux_prop (es : List RawNoteEvent) : ∀ seen : List (List Char),
    ((dedupFirstAux seen es).map (fun n => n.id)).Nodup ∧
    ∀ n ∈ dedupFirstAux seen es, n.id ∉ seen := by
  induction es with
  | nil => intro seen; simp [dedupFirstAux]
  | cons e es ih =>
    intro seen
    by_cases hm : e.id ∈ seen
    · simpa [dedupFirstAux, hm] using ih seen
    · have h2 := ih (e.id :: seen)
      refine ⟨?_, ?_⟩
      · simp only [dedupFirstAux, if_neg hm, List.map_cons, List.nodup_cons]
        refine ⟨?_, h2.1⟩
        intro hmem
        rcases List.mem_map.mp hmem with ⟨n, hn, hid⟩
        have := h2.2 n hn
        simp [noteOfRaw] at hid
        exact this (hid ▸ List.mem_cons_self _ _)
      · intro n hn
        simp only [dedupFirstAux, if_neg hm, List.mem_cons] at hn
        rcases hn with hn | hn
        · subst hn; simpa [noteOfRaw] using hm
        · have := h2.2 n hn
          exact fun hc => this (List.mem_cons_of_mem _ hc)

/-- Each step only extends the dedup set. -/
theorem streamStep_seen_sub (s : StreamState) (e : StreamEvent) :
    s.seenIds ⊆ (streamStep s e).seenIds := by
  cases e with
  | message ev =>
    by_cases hk : ev.kind = 1
    · by_cases hm : ev.id ∈ s.seenIds
      · simp [streamStep, hk, hm]
      · by_cases hr : s.hasReceivedAny <;>
          simp [streamStep, hk, hm, hr, List.subset_cons_self]
    · simp [streamStep, hk]
  | eose => simp [streamStep]
  | errorCb => simp [streamStep, checkComplete_seenIds]
  | closeCb => simp [streamStep, checkComplete_seenIds]
  | ctorFail => simp [streamStep]
  | hardTimeout => simp [streamStep]
  | earlyTimeout =>
    by_cases hh : NOTES_PER_PAGE / 2 ≤ s.seenIds.length <;> simp [streamStep, hh]

/-- A run only extends the dedup set. -/
theorem runStreamFrom_seen_sub (t : List StreamEvent) : ∀ s : StreamState,
    s.seenIds ⊆ (runStreamFrom s t).seenIds := by
  induction t with
  | nil => intro s; simp [runStreamFrom]
  | cons e t ih =>
    intro s
    exact (streamStep_seen_sub s e).trans (ih (streamStep s e))

/-- Running an appended trace runs the pieces in sequence. -/
theorem runStreamFrom_append (pre suf : List StreamEvent) : ∀ s : StreamState,
    runStreamFrom s (pre ++ suf) = runStreamFrom (runStreamFrom s pre) suf := by
  induction pre with
  | nil => intro s; rfl
  | cons e pre ih => intro s; exact ih (streamStep s e)

/-- C4: each event id reaches `onNote` at most once per query — the emitted
notes are exactly the first occurrence of each id among the delivered kind-1
events, in delivery order (the first relay connection to deliver an id wins
and later duplicates are dropped silently), their ids are pairwise distinct,
and the query's dedup set only ever grows along any extension of the
callback trace. -/
theorem fetchNotesStreaming_dedup :
    (∀ t : List StreamEvent, (runStream t).emitted = dedupFirstAux [] (kind1Events t)) ∧
    (∀ t : List StreamEvent, ((runStream t).emitted.map (fun n => n.id)).Nodup) ∧
    (∀ pre suf : List StreamEvent,
      (runStream pre).seenIds ⊆ (runStream (pre ++ suf)).seenIds) := by
  have hemit : ∀ t : List StreamEvent,
      (runStream t).emitted = dedupFirstAux [] (kind1Events t) := by
    intro t
    have := runStreamFrom_emitted_eq t initStreamState
    simpa [runStream, initStreamState] using this
  refine ⟨hemit, ?_, ?_⟩
  · intro t
    rw [hemit t]
    exact (dedupFirstAux_prop (kind1Events t) []).1
  · intro pre suf
    rw [runStream, runStream, runStreamFrom_append]
    exact runStreamFrom_seen_sub suf _

/-! ## C2: bech32 decoding and checksums -/

/-- Character-wise decoding distributes over append. -/
theorem charsToVals_append (a b : List Char) :
    charsToVals (a ++ b) =
      match charsToVals a, charsToVals b with
      | some va, some vb => some (va ++ vb)
      | _, _ => none := by
  induction a with
  | nil =>
    simp only [List.nil_append, charsToVals]
    cases charsToVals b <;> rfl
  | cons c cs ih =>
    simp only [List.cons_append, charsToVals, List.append_eq, ih]
    cases bech32CharVal c <;> cases charsToVals cs <;> cases charsToVals b <;> rfl

/-- Character-wise decoding preserves length. -/
theorem charsToVals_length (a : List Char) : ∀ va, charsToVals a = some va →
    va.length = a.length := by
  induction a with
  | nil =>
    intro va h
    simp [charsToVals] at h
    simp [← h]
  | cons c cs ih =>
    intro va h
    simp only [charsToVals] at h
    cases hv : bech32CharVal c with
    | none => simp [hv] at h
    | some v =>
      cases hcs : charsToVals cs with
      | none => simp [hv, hcs] at h
      | some vs =>
        simp only [hv, hcs, Option.some.injEq] at h
        simp [← h, ih vs hcs]

/-- Strings over the bech32 alphabet decode successfully. -/
theorem charsToVals_isSome_of_mem (c : List Char) (h : ∀ x ∈ c, x ∈ bech32Alphabet) :
    ∃ vc, charsToVals c = some vc := by
  induction c with
  | nil => exact ⟨[], rfl⟩
  | cons x xs ih =>
    have hx : x ∈ bech32Alphabet := h x (List.mem_cons_self _ _)
    have hall : ∀ y ∈ bech32Alphabet, (bech32CharVal y).isSome = true := by decide
    rcases Option.isSome_iff_exists.mp (hall x hx) with ⟨v, hv⟩
    rcases ih (fun y hy => h y (List.mem_cons_of_mem _ hy)) with ⟨vs, hvs⟩
    exact ⟨v :: vs, by simp [charsToVals, hv, hvs]⟩

/-- Lowercasing fixes strings over the (lowercase) bech32 alphabet. -/
theorem map_toLower_alphabet (c : List Char) (h : ∀ x ∈ c, x ∈ bech32Alphabet) :
    c.map Char.toLower = c := by
  have hall : ∀ y ∈ bech32Alphabet, y.toLower = y := by decide
  have : c.map Char.toLower = c.map id := List.map_congr_left (fun x hx => hall x (h x hx))
  simpa using this

/-- Unfolding `bech32ToHex` on a string with the `npub1` human-readable
part. -/
theorem bech32ToHex_npub1 (r : List Char) :
    bech32ToHex (("npub1".toList) ++ r) =
      match charsToVals (r.map Char.toLower) with
      | none => none
      | some values =>
        some (B32Type.npub, bytesToHex (convert5to8 (values.take (values.length - 6)) 0 0)) := by
  unfold bech32ToHex
  rw [List.map_append]
  have h5 : ("npub1".toList).map Char.toLower = 'n' :: 'p' :: 'u' :: 'b' :: '1' :: [] := by
    decide
  rw [h5]
  rfl

/-- C2 counterexample: the valid all-zero-key `npub` produced by the source's
own encoder ends in `e`; replacing that final checksum character by `l`
invalidates the checksum (per the source's own `polymod`), yet `bech32ToHex`
still returns the decoded bytes — identical to those of the valid string —
instead of failing. -/
theorem bech32ToHex_accepts_flipped_checksum :
    (let v := (hexToNpub (List.replicate 64 '0')).getD []
     let f := v.dropLast ++ ['l']
     bech32StringChecksumOk v = true ∧
     v.getLast? = some 'e' ∧
     bech32StringChecksumOk f = false ∧
     bech32ToHex f = some (B32Type.npub, List.replicate 64 '0') ∧
     bech32ToHex f = bech32ToHex v) := by
  decide

/-- C2 (amended): `bech32ToHex` performs no checksum verification at all — it
drops the final six data characters unexamined, so any two `npub` strings
differing only in their six checksum characters decode to the same result,
and an invalid checksum never causes a failure. -/
theorem bech32ToHex_ignores_checksum (d c c2 : List Char)
    (hc : c.length = 6) (hc2 : c2.length = 6)
    (ha : ∀ x ∈ c, x ∈ bech32Alphabet) (ha2 : ∀ x ∈ c2, x ∈ bech32Alphabet) :
    bech32ToHex (("npub1".toList) ++ (d ++ c)) = bech32ToHex (("npub1".toList) ++ (d ++ c2)) := by
  rw [bech32ToHex_npub1, bech32ToHex_npub1]
  have hmap : (d ++ c).map Char.toLower = d.map Char.toLower ++ c := by
    rw [List.map_append, map_toLower_alphabet c ha]
  have hmap2 : (d ++ c2).map Char.toLower = d.map Char.toLower ++ c2 := by
    rw [List.map_append, map_toLower_alphabet c2 ha2]
  rw [hmap, hmap2, charsToVals_append, charsToVals_append]
  rcases charsToVals_isSome_of_mem c ha with ⟨vc, hvc⟩
  rcases charsToVals_isSome_of_mem c2 ha2 with ⟨vc2, hvc2⟩
  rw [hvc, hvc2]
  cases hd : charsToVals (d.map Char.toLower) with
  | none => rfl
  | some vd =>
    have hlc : vc.length = 6 := by rw [charsToVals_length c vc hvc, hc]
    have hlc2 : vc2.length = 6 := by rw [charsToVals_length c2 vc2 hvc2, hc2]
    have ht : (vd ++ vc).take ((vd ++ vc).length - 6) = vd := by
      rw [List.length_append, hlc, show vd.length + 6 - 6 = vd.length from by omega]
      exact List.take_left vd vc
    have ht2 : (vd ++ vc2).take ((vd ++ vc2).length - 6) = vd := by
      rw [List.length_append, hlc2, show vd.length + 6 - 6 = vd.length from by omega]
      exact List.take_left vd vc2
    simp only [ht, ht2]

/-- C2 witness: two six-character checksum tails over the alphabet give the
same decode. -/
theorem bech32ToHex_ignores_checksum_witness :
    bech32ToHex (("npub1".toList) ++ ([] ++ ("qqqqqq".toList)))
      = bech32ToHex (("npub1".toList) ++ ([] ++ ("pppppp".toList))) :=
  bech32ToHex_ignores_checksum [] ("qqqqqq".toList) ("pppppp".toList)
    (by decide) (by decide) (by decide) (by decide)

/-! ## C8: legacy encrypt/decrypt round trip -/

/-- `btoa` is its 6-bit groups rendered through the alphabet plus padding. -/
theorem btoa_eq (bs : List Nat) :
    btoa bs = (bytesToVals64 bs).map b64c ++ b64pad bs.length := by
  induction bs using btoa.induct with
  | case1 => rfl
  | case2 a => rfl
  | case3 a b => rfl
  | case4 a b c rest ih =>
    simp only [btoa, bytesToVals64, List.map_append, List.map_cons, List.map_nil, ih,
      List.length_cons, b64pad, List.append_assoc]
    have h3 : (rest.length + 1 + 1 + 1) % 3 = rest.length % 3 := by omega
    simp only [h3]

/-- Length of the 6-bit group list. -/
theorem bytesToVals64_length (bs : List Nat) :
    (bytesToVals64 bs).length =
      4 * (bs.length / 3) + (if bs.length % 3 = 0 then 0 else bs.length % 3 + 1) := by
  induction bs using btoa.induct with
  | case1 => norm_num [bytesToVals64]
  | case2 a => norm_num [bytesToVals64]
  | case3 a b => norm_num [bytesToVals64]
  | case4 a b c rest ih =>
    simp only [bytesToVals64, List.length_append, List.length_cons, List.length_nil, ih]
    have h0 : rest.length % 3 = 0 ∨ rest.length % 3 = 1 ∨ rest.length % 3 = 2 := by omega
    rcases h0 with h0 | h0 | h0 <;>
      · have h3 : (rest.length + 1 + 1 + 1) % 3 = rest.length % 3 := by omega
        simp only [h3, h0]
        norm_num
        omega

/-- Alphabet characters are not whitespace, `=`, or `?`. -/
theorem b64c_facts (n : Nat) :
    isB64Space (b64c n) = false ∧ b64c n ≠ '=' ∧ b64c n ≠ '?' := by
  by_cases h : n < 64
  · have hall : ∀ i < 64, isB64Space (b64c i) = false ∧ b64c i ≠ '=' ∧ b64c i ≠ '?' := by
      decide
    exact hall n h
  · have hlen : base64Alphabet.length = 64 := by decide
    have : b64c n = 'x' := by
      unfold b64c
      rw [List.getD_eq_getElem?_getD, List.getElem?_eq_none (by omega)]
      rfl
    rw [this]
    refine ⟨rfl, by decide, by decide⟩

/-- Every character of a `btoa` output is an alphabet character or `=`. -/
theorem mem_btoa (bs : List Nat) (x : Char) (hx : x ∈ btoa bs) :
    (∃ n, x = b64c n) ∨ x = '=' := by
  rw [btoa_eq] at hx
  rcases List.mem_append.mp hx with h | h
  · rcases List.mem_map.mp h with ⟨v, _, hv⟩
    exact Or.inl ⟨v, hv.symm⟩
  · right
    unfold b64pad at h
    split at h
    · simp at h
      exact h
    · split at h
      · simp at h
        exact h
      · simp at h

/-- `btoa` output contains no whitespace. -/
theorem btoa_filter_id (bs : List Nat) :
    (btoa bs).filter (fun c => !isB64Space c) = btoa bs := by
  rw [List.filter_eq_self]
  intro a ha
  rcases mem_btoa bs a ha with ⟨n, rfl⟩ | rfl
  · simp [(b64c_facts n).1]
  · decide

/-- `btoa` output contains no `?` character. -/
theorem btoa_no_question (bs : List Nat) (x : Char) (hx : x ∈ btoa bs) : x ≠ '?' := by
  rcases mem_btoa bs x hx with ⟨n, rfl⟩ | rfl
  · exact (b64c_facts n).2.2
  · decide

/-- The rendered 6-bit groups never end in the padding character. -/
theorem getLast_map_b64c_ne (vals : List Nat) : (vals.map b64c).getLast? ≠ some '=' := by
  rw [List.getLast?_eq_getElem?, List.getElem?_map]
  cases h : vals[(vals.map b64c).length - 1]? with
  | none => simp [h]
  | some v => simp [h, (b64c_facts v).2.1]

/-- Decoding the rendered groups recovers the groups. -/
theorem charsToB64Vals_map (vals : List Nat) (h : ∀ v ∈ vals, v < 64) :
    charsToB64Vals (vals.map b64c) = some vals := by
  induction vals with
  | nil => rfl
  | cons v vs ih =>
    have hv : b64CharVal (b64c v) = some v := by
      have hall : ∀ i < 64, b64CharVal (b64c i) = some i := by decide
      exact hall v (h v (List.mem_cons_self _ _))
    have hvs := ih (fun x hx => h x (List.mem_cons_of_mem _ hx))
    simp [charsToB64Vals, hv, hvs]

/-- The 6-bit groups of byte input are all below 64. -/
theorem bytesToVals64_lt64 (bs : List Nat) (h : ∀ b ∈ bs, b < 256) :
    ∀ v ∈ bytesToVals64 bs, v < 64 := by
  induction bs using btoa.induct with
  | case1 => simp [bytesToVals64]
  | case2 a =>
    have := h a (List.mem_cons_self _ _)
    intro v hv
    simp [bytesToVals64] at hv
    rcases hv with hv | hv <;> omega
  | case3 a b =>
    have ha := h a (by simp)
    have hb := h b (by simp)
    intro v hv
    simp [bytesToVals64] at hv
    rcases hv with hv | hv | hv <;> omega
  | case4 a b c rest ih =>
    have ha := h a (by simp)
    have hb := h b (by simp)
    have hc := h c (by simp)
    have ihr := ih (fun x hx => h x (by simp [hx]))
    intro v hv
    simp only [bytesToVals64] at hv
    rcases List.mem_append.mp hv with hv | hv
    · simp at hv
      rcases hv with hv | hv | hv | hv <;> omega
    · exact ihr v hv

/-- Decoding the 6-bit groups of a byte string recovers the bytes, for any
accumulator history (only the tracked bit count matters). -/
theorem convert6to8_bytesToVals64 (bs : List Nat) (h : ∀ b ∈ bs, b < 256) :
    ∀ acc, convert6to8 (bytesToVals64 bs) acc 0 = bs := by
  induction bs using btoa.induct with
  | case1 => intro acc; rfl
  | case2 a =>
    intro acc
    have ha := h a (by simp)
    simp only [bytesToVals64, convert6to8]
    norm_num
    omega
  | case3 a b =>
    intro acc
    have ha := h a (by simp)
    have hb := h b (by simp)
    simp only [bytesToVals64, convert6to8]
    norm_num
    constructor
    · omega
    · omega
  | case4 a b c rest ih =>
    intro acc
    have ha := h a (by simp)
    have hb := h b (by simp)
    have hc := h c (by simp)
    have ihr := ih (fun x hx => h x (by simp [hx]))
    simp only [bytesToVals64, List.cons_append, List.nil_append, convert6to8]
    norm_num
    refine ⟨by omega, by omega, by omega, ?_⟩
    exact ihr _

/-- Padding removal on data with no trailing padding. -/
theorem stripPad_no_pad (M : List Char) (hM : M.getLast? ≠ some '=') : stripPad M = M := by
  simp [stripPad, hM]

/-- Padding removal strips a single trailing `=`. -/
theorem stripPad_pad1 (M : List Char) (h4 : (M ++ ['=']).length % 4 = 0)
    (hM : M.getLast? ≠ some '=') : stripPad (M ++ ['=']) = M := by
  unfold stripPad
  rw [if_pos h4, if_pos (show (M ++ ['=']).getLast? = some '=' by simp)]
  simp only [List.dropLast_concat]
  rw [if_neg hM]

/-- Padding removal strips two trailing `=`. -/
theorem stripPad_pad2 (M : List Char) (h4 : (M ++ ['=', '=']).length % 4 = 0) :
    stripPad (M ++ ['=', '=']) = M := by
  unfold stripPad
  rw [show M ++ ['=', '='] = (M ++ ['=']) ++ ['='] by simp]
  rw [if_pos (by simpa using h4)]
  rw [if_pos (show ((M ++ ['=']) ++ ['=']).getLast? = some '=' by simp)]
  simp only [List.dropLast_concat]
  rw [if_pos (show (M ++ ['=']).getLast? = some '=' by simp)]

/-- Round trip of the platform base64 codec on byte strings. -/
theorem atob_btoa (bs : List Nat) (hb : ∀ b ∈ bs, b < 256) : atob (btoa bs) = some bs := by
  have hlt := bytesToVals64_lt64 bs hb
  have hdec : (charsToB64Vals ((bytesToVals64 bs).map b64c)).map
      (fun vals => convert6to8 vals 0 0) = some bs := by
    rw [charsToB64Vals_map _ hlt]
    simp [convert6to8_bytesToVals64 bs hb 0]
  have hlen := bytesToVals64_length bs
  have hgl := getLast_map_b64c_ne (bytesToVals64 bs)
  simp only [atob, btoa_filter_id]
  rw [btoa_eq]
  have h0 : bs.length % 3 = 0 ∨ bs.length % 3 = 1 ∨ bs.length % 3 = 2 := by omega
  rcases h0 with h0 | h0 | h0
  · have hpad : b64pad bs.length = [] := by simp [b64pad, h0]
    have hvl : (bytesToVals64 bs).length % 4 = 0 := by
      rw [hlen, h0]
      norm_num
    rw [hpad, List.append_nil, stripPad_no_pad _ hgl]
    rw [if_neg (by rw [List.length_map]; omega)]
    exact hdec
  · have hpad : b64pad bs.length = ['=', '='] := by simp [b64pad, h0]
    have hvl : (bytesToVals64 bs).length % 4 = 2 := by
      rw [hlen, h0]
      norm_num
      omega
    rw [hpad, stripPad_pad2 _ (by rw [List.length_append, List.length_map]; simp; omega)]
    rw [if_neg (by rw [List.length_map]; omega)]
    exact hdec
  · have hpad : b64pad bs.length = ['='] := by simp [b64pad, h0]
    have hvl : (bytesToVals64 bs).length % 4 = 3 := by
      rw [hlen, h0]
      norm_num
      omega
    rw [hpad, stripPad_pad1 _ (by rw [List.length_append, List.length_map]; simp; omega) hgl]
    rw [if_neg (by rw [List.length_map]; omega)]
    exact hdec

theorem char_toNat_lt (c : Char) : c.toNat < 1114112 := by
  show c.val.toNat < 1114112
  rcases c.valid with h | ⟨h1, h2⟩
  · have h3 : c.val.toNat < 55296 := h
    omega
  · exact h2

theorem utf8Step_ascii (out : List Char) (b : Nat) (h : b < 0x80) :
    utf8Step ⟨0, 0, out⟩ b = ⟨0, 0, out ++ [Char.ofNat b]⟩ := by
  simp [utf8Step, utf8StepFresh, h]

theorem utf8Step_lead2 (out : List Char) (b : Nat) (h1 : 0xc0 ≤ b) (h2 : b < 0xe0) :
    utf8Step ⟨0, 0, out⟩ b = ⟨b - 0xc0, 1, out⟩ := by
  simp [utf8Step, utf8StepFresh, show ¬ b < 0x80 from by omega, h1, h2]

theorem utf8Step_lead3 (out : List Char) (b : Nat) (h1 : 0xe0 ≤ b) (h2 : b < 0xf0) :
    utf8Step ⟨0, 0, out⟩ b = ⟨b - 0xe0, 2, out⟩ := by
  simp [utf8Step, utf8StepFresh, show ¬ b < 0x80 from by omega,
    show ¬ (0xc0 ≤ b ∧ b < 0xe0) from by omega, h1, h2]

theorem utf8Step_lead4 (out : List Char) (b : Nat) (h1 : 0xf0 ≤ b) (h2 : b < 0xf8) :
    utf8Step ⟨0, 0, out⟩ b = ⟨b - 0xf0, 3, out⟩ := by
  simp [utf8Step, utf8StepFresh, show ¬ b < 0x80 from by omega,
    show ¬ (0xc0 ≤ b ∧ b < 0xe0) from by omega,
    show ¬ (0xe0 ≤ b ∧ b < 0xf0) from by omega, h1, h2]

theorem utf8Step_contMore (cp n : Nat) (out : List Char) (b : Nat) (h : 0x80 ≤ b)
    (h2 : b < 0xc0) :
    utf8Step ⟨cp, n + 2, out⟩ b = ⟨cp * 64 + (b - 0x80), n + 1, out⟩ := by
  simp [utf8Step, isCont, h, h2]

theorem utf8Step_contLast (cp : Nat) (out : List Char) (b : Nat) (h : 0x80 ≤ b) (h2 : b < 0xc0) :
    utf8Step ⟨cp, 1, out⟩ b = ⟨0, 0, out ++ [Char.ofNat (cp * 64 + (b - 0x80))]⟩ := by
  simp [utf8Step, isCont, h, h2]

theorem foldl_utf8Step_encChar (c : Char) (out : List Char) (bs : List Nat) :
    (utf8EncodeChar c ++ bs).foldl utf8Step ⟨0, 0, out⟩
      = bs.foldl utf8Step ⟨0, 0, out ++ [c]⟩ := by
  have hofn : Char.ofNat c.toNat = c := Char.ofNat_toNat c
  have hv := char_toNat_lt c
  unfold utf8EncodeChar
  by_cases h1 : c.toNat < 0x80
  · rw [if_pos h1]
    simp only [List.cons_append, List.nil_append, List.foldl_cons]
    rw [utf8Step_ascii _ _ h1, hofn]
  · rw [if_neg h1]
    by_cases h2 : c.toNat < 0x800
    · rw [if_pos h2]
      simp only [List.cons_append, List.nil_append, List.foldl_cons]
      rw [utf8Step_lead2 _ _ (by omega) (by omega),
        show 0xc0 + c.toNat / 64 - 0xc0 = c.toNat / 64 from by omega,
        utf8Step_contLast _ _ _ (by omega) (by omega),
        show c.toNat / 64 * 64 + (0x80 + c.toNat % 64 - 0x80) = c.toNat from by omega, hofn]
    · rw [if_neg h2]
      by_cases h3 : c.toNat < 0x10000
      · rw [if_pos h3]
        simp only [List.cons_append, List.nil_append, List.foldl_cons]
        rw [utf8Step_lead3 _ _ (by omega) (by omega),
          show 0xe0 + c.toNat / 4096 - 0xe0 = c.toNat / 4096 from by omega,
          show (2 : Nat) = 0 + 2 from rfl,
          utf8Step_contMore _ _ _ _ (by omega) (by omega),
          show c.toNat / 4096 * 64 + (0x80 + c.toNat / 64 % 64 - 0x80) = c.toNat / 64
            from by omega,
          show (0 : Nat) + 1 = 1 from rfl,
          utf8Step_contLast _ _ _ (by omega) (by omega),
          show c.toNat / 64 * 64 + (0x80 + c.toNat % 64 - 0x80) = c.toNat from by omega, hofn]
      · rw [if_neg h3]
        simp only [List.cons_append, List.nil_append, List.foldl_cons]
        rw [utf8Step_lead4 _ _ (by omega) (by omega),
          show 0xf0 + c.toNat / 262144 - 0xf0 = c.toNat / 262144 from by omega,
          show (3 : Nat) = 1 + 2 from rfl,
          utf8Step_contMore _ _ _ _ (by omega) (by omega),
          show c.toNat / 262144 * 64 + (0x80 + c.toNat / 4096 % 64 - 0x80) = c.toNat / 4096
            from by omega,
          show (1 : Nat) + 1 = 0 + 2 from rfl,
          utf8Step_contMore _ _ _ _ (by omega) (by omega),
          show c.toNat / 4096 * 64 + (0x80 + c.toNat / 64 % 64 - 0x80) = c.toNat / 64
            from by omega,
          show (0 : Nat) + 1 = 1 from rfl,
          utf8Step_contLast _ _ _ (by omega) (by omega),
          show c.toNat / 64 * 64 + (0x80 + c.toNat % 64 - 0x80) = c.toNat from by omega, hofn]

theorem utf8_roundtrip (s : List Char) : utf8Decode (utf8Encode s) = s := by
  suffices h : ∀ out : List Char, (utf8Encode s).foldl utf8Step ⟨0, 0, out⟩ = ⟨0, 0, out ++ s⟩ by
    have h0 := h []
    simp only [utf8Decode, h0]
    simp
  induction s with
  | nil => intro out; simp [utf8Encode]
  | cons c cs ih =>
    intro out
    rw [show utf8Encode (c :: cs) = utf8EncodeChar c ++ utf8Encode cs from by
      simp [utf8Encode]]
    rw [foldl_utf8Step_encChar, ih]
    simp

/-- A list is a `isPrefixOf` of itself extended. -/
theorem isPrefixOf_append_self (a b : List Char) : a.isPrefixOf (a ++ b) = true := by
  simp [List.isPrefixOf_iff_prefix]

/-- `splitFirst` finds the first separator occurrence when the part before it
contains no `?` (the separator's first character). -/
theorem splitFirst_left (spTail l r : List Char) (h : '?' ∉ l) :
    splitFirst ('?' :: spTail) (l ++ ('?' :: spTail) ++ r) = some (l, r) := by
  induction l with
  | nil =>
    simp only [List.nil_append, List.cons_append]
    rw [splitFirst]
    rw [if_pos (by rw [show '?' :: (spTail ++ r) = ('?' :: spTail) ++ r from rfl]; exact isPrefixOf_append_self _ _)]
    rw [show ('?' :: (spTail ++ r)).drop ('?' :: spTail).length
        = (('?' :: spTail) ++ r).drop ('?' :: spTail).length from by simp]
    rw [List.drop_left]
  | cons x l ih =>
    have hx : ¬ ('?' :: spTail).isPrefixOf (x :: (l ++ ('?' :: spTail) ++ r)) = true := by
      have hxq : x ≠ '?' := fun he => h (he ▸ List.mem_cons_self _ _)
      simp [List.isPrefixOf]
      intro he
      exact absurd he.symm hxq
    have ihh := ih (fun hm => h (List.mem_cons_of_mem _ hm))
    simp only [List.cons_append]
    rw [splitFirst, if_neg hx]
    simp only [List.cons_append] at ihh
    rw [ihh]

/-- `splitFirst` finds nothing in a string without `?`. -/
theorem splitFirst_none (spTail r : List Char) (h : '?' ∉ r) :
    splitFirst ('?' :: spTail) r = none := by
  induction r with
  | nil => rfl
  | cons x xs ih =>
    have hx : ¬ ('?' :: spTail).isPrefixOf (x :: xs) = true := by
      have hxq : x ≠ '?' := fun he => h (he ▸ List.mem_cons_self _ _)
      simp [List.isPrefixOf]
      intro he
      exact absurd he.symm hxq
    rw [splitFirst, if_neg hx, ih (fun hm => h (List.mem_cons_of_mem _ hm))]

/-- The separator path of `nip04DecryptOnly`: on a ciphertext of the shape
`e64 ++ "?iv=" ++ iv64` with no stray `?` in either part, the decoder
base64-decodes the two parts and proceeds with the checks and AES
decryption. -/
theorem nip04DecryptOnly_sep (gss : List Char → List Char → List Nat)
    (aesDec : List Nat → List Nat → List Nat → Option (List Nat))
    (jp : List Char → Option CipherJson) (privKey senderPub : List Char)
    (e64 iv64 : List Char) (hqe : '?' ∉ e64) (hqiv : '?' ∉ iv64) :
    nip04DecryptOnly gss aesDec jp privKey senderPub (e64 ++ ("?iv=".toList) ++ iv64)
      = (match atob e64, atob iv64 with
         | some encryptedBytes, some ivBytes =>
           if ivBytes.length = 16 then
             if encryptedBytes.length ≠ 0 then
               (normalizePrivateKey privKey).bind fun nk =>
                 (aesDec (((gss nk ('0' :: '2' :: senderPub)).drop 1).take 32) ivBytes
                   encryptedBytes).map utf8Decode
             else none
           else none
         | _, _ => none) := by
  have hsp : splitFirst ("?iv=".toList) (e64 ++ ("?iv=".toList) ++ iv64)
      = some (e64, iv64) :=
    splitFirst_left ("iv=".toList) e64 iv64 hqe
  have hcontains : containsTok ("?iv=".toList) (e64 ++ ("?iv=".toList) ++ iv64) = true := by
    rw [containsTok, hsp]
    rfl
  have hnone : splitFirst ("?iv=".toList) iv64 = none :=
    splitFirst_none ("iv=".toList) iv64 hqiv
  have hsplit2 : jsSplitTwo ("?iv=".toList) (e64 ++ ("?iv=".toList) ++ iv64)
      = (e64, iv64) := by
    simp only [jsSplitTwo, hsp, hnone]
  simp only [nip04DecryptOnly, List.find?_cons, hcontains, hsplit2, Option.some_bind]

/-- C8: decrypting with `nip04DecryptOnly` what `nip04Encrypt` produced
returns the original plaintext, for every pair of keypairs deriving the same
ECDH shared secret and every UTF-8 plaintext (the empty string and multi-byte
characters included), via the legacy path: random 16-byte IV, AES-256-CBC,
`base64(ciphertext) + "?iv=" + base64(iv)`.  The AES-CBC primitive is
abstract: the hypotheses state that decryption inverts encryption under the
shared key and that ciphertexts are nonempty byte strings, both guaranteed by
AES-CBC. -/
theorem nip04_roundtrip
    (gss : List Char → List Char → List Nat)
    (aesEnc : List Nat → List Nat → List Nat → List Nat)
    (aesDec : List Nat → List Nat → List Nat → Option (List Nat))
    (jp : List Char → Option CipherJson)
    (privA pubB privB pubA msg : List Char) (iv : List Nat) (nkA nkB : List Char)
    (hA : normalizePrivateKey privA = some nkA)
    (hB : normalizePrivateKey privB = some nkB)
    (hshared : ((gss nkB ('0' :: '2' :: pubA)).drop 1).take 32
      = ((gss nkA ('0' :: '2' :: pubB)).drop 1).take 32)
    (hivlen : iv.length = 16) (hivb : ∀ b ∈ iv, b < 256)
    (hct : ∀ b ∈ aesEnc (((gss nkA ('0' :: '2' :: pubB)).drop 1).take 32) iv (utf8Encode msg),
      b < 256)
    (hctne : aesEnc (((gss nkA ('0' :: '2' :: pubB)).drop 1).take 32) iv (utf8Encode msg) ≠ [])
    (hinv : aesDec (((gss nkB ('0' :: '2' :: pubA)).drop 1).take 32) iv
        (aesEnc (((gss nkA ('0' :: '2' :: pubB)).drop 1).take 32) iv (utf8Encode msg))
      = some (utf8Encode msg)) :
    (nip04Encrypt gss aesEnc iv privA pubB msg).bind
      (fun ct => nip04DecryptOnly gss aesDec jp privB pubA ct) = some msg := by
  set sharedA := ((gss nkA ('0' :: '2' :: pubB)).drop 1).take 32 with hsA
  set ct := aesEnc sharedA iv (utf8Encode msg) with hctdef
  have henc : nip04Encrypt gss aesEnc iv privA pubB msg
      = some (btoa ct ++ ("?iv=".toList) ++ btoa iv) := by
    rw [nip04Encrypt, hA, Option.map_some']
  rw [henc, Option.some_bind]
  have hqct : '?' ∉ btoa ct := fun hm => btoa_no_question ct _ hm rfl
  have hqiv : '?' ∉ btoa iv := fun hm => btoa_no_question iv _ hm rfl
  rw [nip04DecryptOnly_sep gss aesDec jp privB pubA (btoa ct) (btoa iv) hqct hqiv]
  rw [atob_btoa ct hct, atob_btoa iv hivb]
  rw [show (match (some ct : Option (List Nat)), (some iv : Option (List Nat)) with
      | some encryptedBytes, some ivBytes =>
        if ivBytes.length = 16 then
          if encryptedBytes.length ≠ 0 then
            (normalizePrivateKey privB).bind fun nk =>
              (aesDec (((gss nk ('0' :: '2' :: pubA)).drop 1).take 32) ivBytes
                encryptedBytes).map utf8Decode
          else none
        else none
      | _, _ => none)
      = (if iv.length = 16 then
          if ct.length ≠ 0 then
            (normalizePrivateKey privB).bind fun nk =>
              (aesDec (((gss nk ('0' :: '2' :: pubA)).drop 1).take 32) iv ct).map utf8Decode
          else none
        else none) from rfl]
  rw [if_pos hivlen, if_pos (by simpa using hctne), hB, Option.some_bind]
  rw [hshared] at hinv ⊢
  rw [hinv, Option.map_some', utf8_roundtrip]

/-- C8 witness: the round trip at a concrete multi-byte message (and, via
the same theorem, the empty string), with toy instantiations of the ECDH and
AES primitives satisfying the stated hypotheses. -/
theorem nip04_roundtrip_witness :
    (nip04Encrypt (fun _ _ => List.replicate 34 7) (fun _ _ pt => pt ++ [1]) (List.range 16)
        (List.replicate 64 'a') (List.replicate 64 'b') ("héllo √".toList)).bind
      (fun ct => nip04DecryptOnly (fun _ _ => List.replicate 34 7) (fun _ _ ct => some ct.dropLast)
        (fun _ => none) (List.replicate 64 'a') (List.replicate 64 'b') ct) = some ("héllo √".toList) ∧
    (nip04Encrypt (fun _ _ => List.replicate 34 7) (fun _ _ pt => pt ++ [1]) (List.range 16)
        (List.replicate 64 'a') (List.replicate 64 'b') []).bind
      (fun ct => nip04DecryptOnly (fun _ _ => List.replicate 34 7) (fun _ _ ct => some ct.dropLast)
        (fun _ => none) (List.replicate 64 'a') (List.replicate 64 'b') ct) = some [] := by
  constructor
  · exact nip04_roundtrip (fun _ _ => List.replicate 34 7) (fun _ _ pt => pt ++ [1])
      (fun _ _ ct => some ct.dropLast) (fun _ => none) (List.replicate 64 'a')
      (List.replicate 64 'b') (List.replicate 64 'a') (List.replicate 64 'b')
      ("héllo √".toList) (List.range 16) (List.replicate 64 'a') (List.replicate 64 'a')
      (by decide) (by decide) rfl (by decide) (by decide) (by decide) (by decide) (by decide)
  · exact nip04_roundtrip (fun _ _ => List.replicate 34 7) (fun _ _ pt => pt ++ [1])
      (fun _ _ ct => some ct.dropLast) (fun _ => none) (List.replicate 64 'a')
      (List.replicate 64 'b') (List.replicate 64 'a') (List.replicate 64 'b')
      [] (List.range 16) (List.replicate 64 'a') (List.replicate 64 'a')
      (by decide) (by decide) rfl (by decide) (by decide) (by decide) (by decide) (by decide)
